import Mathlib

/-!
Verification development for the skeletal_animation library (Rust).

The source is shallowly embedded over exact rationals (ℚ): every f32/f64
value of the source is modelled as a rational and arithmetic is exact.
Numeric routines that have no exact rational counterpart (square roots,
the fast inverse square root of src/math.rs which manipulates the IEEE-754
bit pattern through mem::transmute, and a few routines of the external
vecmath/quaternion crates) are gathered in an `Ext` record of function
parameters; theorems that depend on their values state the needed ideal
behaviour (for example `inv_sqrt 1 = 1`) as an explicit hypothesis.

Rust panics (HashMap indexing on a missing key, out-of-range slice or
array indexing) are modelled by `Option`: a function returns `none`
exactly where the source panics or reads memory whose contents the pure
embedding cannot represent.
-/

set_option maxRecDepth 100000

namespace SkeletalAnimation

/-- Scalar linear interpolation of the external `interpolation` crate:
`lerp(a, b, t) = a + (b - a) * t`. -/
def lerp (a b t : ℚ) : ℚ := a + (b - a) * t

/-- A 3-component vector (`Vector3<f32>` of the vecmath crate, indices 0,1,2
become fields x,y,z). -/
structure Vec3 where
  x : ℚ
  y : ℚ
  z : ℚ
deriving DecidableEq

/-- vecmath `vec3_add`. -/
def vec3_add (a b : Vec3) : Vec3 := ⟨a.x + b.x, a.y + b.y, a.z + b.z⟩

/-- vecmath `vec3_sub`. -/
def vec3_sub (a b : Vec3) : Vec3 := ⟨a.x - b.x, a.y - b.y, a.z - b.z⟩

/-- vecmath `vec3_scale`. -/
def vec3_scale (a : Vec3) (c : ℚ) : Vec3 := ⟨a.x * c, a.y * c, a.z * c⟩

/-- vecmath `vec3_dot`. -/
def vec3_dot (a b : Vec3) : ℚ := a.x * b.x + a.y * b.y + a.z * b.z

/-- vecmath `vec3_cross`. -/
def vec3_cross (a b : Vec3) : Vec3 :=
  ⟨a.y * b.z - a.z * b.y, a.z * b.x - a.x * b.z, a.x * b.y - a.y * b.x⟩

/-- Componentwise interpolation of `Vector3` values through the external
`interpolation` crate (`lerp` applied per component). -/
def vec3_lerp (a b : Vec3) (t : ℚ) : Vec3 :=
  ⟨lerp a.x b.x t, lerp a.y b.y t, lerp a.z b.z t⟩

/-- A quaternion. The source type `Quaternion<f32>` of the quaternion crate
is the pair `(w, [x, y, z])`; it is flattened into four fields here. -/
structure Quat where
  w : ℚ
  x : ℚ
  y : ℚ
  z : ℚ
deriving DecidableEq

/-- quaternion crate `id`: the identity rotation `(1, [0, 0, 0])`. -/
def quaternion_id : Quat := ⟨1, 0, 0, 0⟩

/-- quaternion crate `mul`: Hamilton product. -/
def quaternion_mul (a b : Quat) : Quat :=
  ⟨a.w * b.w - (a.x * b.x + a.y * b.y + a.z * b.z),
   a.w * b.x + a.x * b.w + a.y * b.z - a.z * b.y,
   a.w * b.y + a.y * b.w + a.z * b.x - a.x * b.z,
   a.w * b.z + a.z * b.w + a.x * b.y - a.y * b.x⟩

/-- quaternion crate `dot`. -/
def quaternion_dot (a b : Quat) : ℚ :=
  a.w * b.w + a.x * b.x + a.y * b.y + a.z * b.z

/-- quaternion crate `scale`. -/
def quaternion_scale (a : Quat) (t : ℚ) : Quat :=
  ⟨a.w * t, a.x * t, a.y * t, a.z * t⟩

/-- quaternion crate `add`. -/
def quaternion_add (a b : Quat) : Quat :=
  ⟨a.w + b.w, a.x + b.x, a.y + b.y, a.z + b.z⟩

/-- quaternion crate `conj`. -/
def quaternion_conj (a : Quat) : Quat := ⟨a.w, -a.x, -a.y, -a.z⟩

/-- quaternion crate `rotate_vector`: `v + w*t + cross(qv, t)` with
`t = 2 * cross(qv, v)`. -/
def quaternion_rotate_vector (q : Quat) (v : Vec3) : Vec3 :=
  let qv : Vec3 := ⟨q.x, q.y, q.z⟩
  let t := vec3_scale (vec3_cross qv v) 2
  vec3_add v (vec3_add (vec3_scale t q.w) (vec3_cross qv t))

/-- A 4×4 row-major matrix (`Matrix4<f32>` = `[[f32; 4]; 4]` of vecmath);
field `mRC` is entry `m[R][C]` of the source. -/
structure Mat4 where
  m00 : ℚ
  m01 : ℚ
  m02 : ℚ
  m03 : ℚ
  m10 : ℚ
  m11 : ℚ
  m12 : ℚ
  m13 : ℚ
  m20 : ℚ
  m21 : ℚ
  m22 : ℚ
  m23 : ℚ
  m30 : ℚ
  m31 : ℚ
  m32 : ℚ
  m33 : ℚ
deriving DecidableEq

/-- vecmath `mat4_id`. -/
def mat4_id : Mat4 :=
  ⟨1, 0, 0, 0,
   0, 1, 0, 0,
   0, 0, 1, 0,
   0, 0, 0, 1⟩

/-- vecmath `row_mat4_mul`: entry (r, c) of the product is the dot product
of row r of `a` with column c of `b`. -/
def row_mat4_mul (a b : Mat4) : Mat4 :=
  ⟨a.m00 * b.m00 + a.m01 * b.m10 + a.m02 * b.m20 + a.m03 * b.m30,
   a.m00 * b.m01 + a.m01 * b.m11 + a.m02 * b.m21 + a.m03 * b.m31,
   a.m00 * b.m02 + a.m01 * b.m12 + a.m02 * b.m22 + a.m03 * b.m32,
   a.m00 * b.m03 + a.m01 * b.m13 + a.m02 * b.m23 + a.m03 * b.m33,
   a.m10 * b.m00 + a.m11 * b.m10 + a.m12 * b.m20 + a.m13 * b.m30,
   a.m10 * b.m01 + a.m11 * b.m11 + a.m12 * b.m21 + a.m13 * b.m31,
   a.m10 * b.m02 + a.m11 * b.m12 + a.m12 * b.m22 + a.m13 * b.m32,
   a.m10 * b.m03 + a.m11 * b.m13 + a.m12 * b.m23 + a.m13 * b.m33,
   a.m20 * b.m00 + a.m21 * b.m10 + a.m22 * b.m20 + a.m23 * b.m30,
   a.m20 * b.m01 + a.m21 * b.m11 + a.m22 * b.m21 + a.m23 * b.m31,
   a.m20 * b.m02 + a.m21 * b.m12 + a.m22 * b.m22 + a.m23 * b.m32,
   a.m20 * b.m03 + a.m21 * b.m13 + a.m22 * b.m23 + a.m23 * b.m33,
   a.m30 * b.m00 + a.m31 * b.m10 + a.m32 * b.m20 + a.m33 * b.m30,
   a.m30 * b.m01 + a.m31 * b.m11 + a.m32 * b.m21 + a.m33 * b.m31,
   a.m30 * b.m02 + a.m31 * b.m12 + a.m32 * b.m22 + a.m33 * b.m32,
   a.m30 * b.m03 + a.m31 * b.m13 + a.m32 * b.m23 + a.m33 * b.m33⟩

/-- vecmath `mat4_transposed`. -/
def mat4_transposed (a : Mat4) : Mat4 :=
  ⟨a.m00, a.m10, a.m20, a.m30,
   a.m01, a.m11, a.m21, a.m31,
   a.m02, a.m12, a.m22, a.m32,
   a.m03, a.m13, a.m23, a.m33⟩

/-- The `transform_vector` of the `Transform` impl for `Matrix4<f32>`
(src/transform.rs): `row_mat4_transform(self, [v, 1])` truncated to its
first three components. -/
def mat4_transform_vector (m : Mat4) (v : Vec3) : Vec3 :=
  ⟨m.m00 * v.x + m.m01 * v.y + m.m02 * v.z + m.m03,
   m.m10 * v.x + m.m11 * v.y + m.m12 * v.z + m.m13,
   m.m20 * v.x + m.m21 * v.y + m.m22 * v.z + m.m23⟩

/-- The `set_translation` of the `Transform` impl for `Matrix4<f32>`
(src/transform.rs): overwrite entries m[0][3], m[1][3], m[2][3]. -/
def mat4_set_translation (m : Mat4) (t : Vec3) : Mat4 :=
  { m with m03 := t.x, m13 := t.y, m23 := t.z }

/-- The `get_translation` of the `Transform` impl for `Matrix4<f32>`. -/
def mat4_get_translation (m : Mat4) : Vec3 := ⟨m.m03, m.m13, m.m23⟩

/-- A 3×3 row-major matrix (`Matrix3<f32>` = `[Vector3<f32>; 3]`) given by
its three rows; used for the IK bend-plane rotation. -/
structure Mat3 where
  r0 : Vec3
  r1 : Vec3
  r2 : Vec3
deriving DecidableEq

/-- vecmath `row_mat3_transform`: multiply the row-major 3×3 matrix by a
column vector. -/
def row_mat3_transform (m : Mat3) (v : Vec3) : Vec3 :=
  ⟨vec3_dot m.r0 v, vec3_dot m.r1 v, vec3_dot m.r2 v⟩

/-- External numeric routines with no exact rational counterpart, taken as
parameters of the development:
`sqrt` (f32 square root used by vecmath lengths and quaternion magnitudes),
`inv_sqrt` (src/math.rs `inv_sqrt`, the fast inverse square root computed
by transmuting the f32 bit pattern — inherently tied to the IEEE-754
representation), `rotation_from_to` (quaternion crate), and the general
matrix inversions `mat4_inv` / `mat3_inv` (vecmath crate). -/
structure Ext where
  sqrt : ℚ → ℚ
  inv_sqrt : ℚ → ℚ
  rotation_from_to : Vec3 → Vec3 → Quat
  mat4_inv : Mat4 → Mat4
  mat3_inv : Mat3 → Mat3

/-- vecmath `vec3_len`: square root of the squared length. -/
def vec3_len (ext : Ext) (v : Vec3) : ℚ := ext.sqrt (vec3_dot v v)

/-- vecmath `vec3_normalized`: scale by the inverse length. Division by
zero (a zero-length input in the source, producing f32 infinities) becomes
multiplication by `0⁻¹ = 0` in ℚ. -/
def vec3_normalized (ext : Ext) (v : Vec3) : Vec3 :=
  vec3_scale v (vec3_len ext v)⁻¹

/-- quaternion crate `len`: magnitude of a quaternion. -/
def quaternion_len (ext : Ext) (q : Quat) : ℚ := ext.sqrt (quaternion_dot q q)

/-- src/math.rs `lerp_quaternion`: linear blend of two quaternions that
first flips the sign of the second operand's weight when the dot product
is not positive, then renormalizes the summed quaternion with `inv_sqrt`. -/
def lerp_quaternion (ext : Ext) (q1 q2 : Quat) (blend_factor : ℚ) : Quat :=
  let dot := q1.w * q2.w + q1.x * q2.x + q1.y * q2.y + q1.z * q2.z
  let s := 1 - blend_factor
  let t := if dot > 0 then blend_factor else -blend_factor
  let w := s * q1.w + t * q2.w
  let x := s * q1.x + t * q2.x
  let y := s * q1.y + t * q2.y
  let z := s * q1.z + t * q2.z
  let inv_sqrt_len := ext.inv_sqrt (w * w + x * x + y * y + z * z)
  ⟨w * inv_sqrt_len, x * inv_sqrt_len, y * inv_sqrt_len, z * inv_sqrt_len⟩

/-- src/math.rs `quaternion_to_matrix`. -/
def quaternion_to_matrix (q : Quat) : Mat4 :=
  let w := q.w
  let x := q.x
  let y := q.y
  let z := q.z
  let x2 := x + x
  let y2 := y + y
  let z2 := z + z
  let xx2 := x2 * x
  let xy2 := x2 * y
  let xz2 := x2 * z
  let yy2 := y2 * y
  let yz2 := y2 * z
  let zz2 := z2 * z
  let wy2 := y2 * w
  let wz2 := z2 * w
  let wx2 := x2 * w
  ⟨1 - yy2 - zz2, xy2 + wz2, xz2 - wy2, 0,
   xy2 - wz2, 1 - xx2 - zz2, yz2 + wx2, 0,
   xz2 + wy2, yz2 - wx2, 1 - xx2 - yy2, 0,
   0, 0, 0, 1⟩

/-- Diagonal entry of a `Mat4` by index, helper for `matrix_to_quaternion`. -/
def mat4_diag (m : Mat4) : ℕ → ℚ
  | 0 => m.m00
  | 1 => m.m11
  | _ => m.m22

/-- src/math.rs `matrix_to_quaternion`: the branch-selecting standard
algorithm. When the trace is not positive, the source picks the largest
diagonal entry i, sets j = next[i], k = next[j] with next = [1, 2, 0], and
fills the quaternion component array q accordingly; the three possible
values of i are expanded into the three explicit branches below. -/
def matrix_to_quaternion (ext : Ext) (m : Mat4) : Quat :=
  let trace := m.m00 + m.m11 + m.m22
  if trace > 0 then
    let t := trace + 1
    let s := ext.inv_sqrt t * (1 / 2)
    ⟨s * t, (m.m12 - m.m21) * s, (m.m20 - m.m02) * s, (m.m01 - m.m10) * s⟩
  else
    let i : ℕ := if m.m11 > m.m00 then 1 else 0
    let i : ℕ := if m.m22 > mat4_diag m i then 2 else i
    if i = 1 then
      let t := (m.m11 - (m.m22 + m.m00)) + 1
      let s := ext.inv_sqrt t * (1 / 2)
      ⟨(m.m20 - m.m02) * s, (m.m01 + m.m10) * s, s * t, (m.m12 + m.m21) * s⟩
    else if i = 2 then
      let t := (m.m22 - (m.m00 + m.m11)) + 1
      let s := ext.inv_sqrt t * (1 / 2)
      ⟨(m.m01 - m.m10) * s, (m.m20 + m.m02) * s, (m.m12 + m.m21) * s, s * t⟩
    else
      let t := (m.m00 - (m.m11 + m.m22)) + 1
      let s := ext.inv_sqrt t * (1 / 2)
      ⟨(m.m12 - m.m21) * s, s * t, (m.m01 + m.m10) * s, (m.m02 + m.m20) * s⟩

/-- The `get_rotation` of the `Transform` impl for `Matrix4<f32>`. -/
def mat4_get_rotation (ext : Ext) (m : Mat4) : Quat := matrix_to_quaternion ext m

/-- The `set_rotation` of the `Transform` impl for `Matrix4<f32>`: replace
the upper-left 3×3 block with the rotation matrix of the quaternion. -/
def mat4_set_rotation (m : Mat4) (rotation : Quat) : Mat4 :=
  let r := quaternion_to_matrix rotation
  { m with
    m00 := r.m00, m10 := r.m10, m20 := r.m20,
    m01 := r.m01, m11 := r.m11, m21 := r.m21,
    m02 := r.m02, m12 := r.m12, m22 := r.m22 }

/-- A dual quaternion (`DualQuaternion<f32>` of the dual_quaternion crate,
the pair of a real and a dual quaternion part). -/
structure DualQuat where
  real : Quat
  dual : Quat
deriving DecidableEq

/-- dual_quaternion crate `id`. -/
def dual_quaternion_id : DualQuat := ⟨quaternion_id, ⟨0, 0, 0, 0⟩⟩

/-- dual_quaternion crate `add` (componentwise). -/
def dual_quaternion_add (a b : DualQuat) : DualQuat :=
  ⟨quaternion_add a.real b.real, quaternion_add a.dual b.dual⟩

/-- dual_quaternion crate `scale` (componentwise). -/
def dual_quaternion_scale (a : DualQuat) (t : ℚ) : DualQuat :=
  ⟨quaternion_scale a.real t, quaternion_scale a.dual t⟩

/-- dual_quaternion crate `dot`: dot product of the real parts. -/
def dual_quaternion_dot (a b : DualQuat) : ℚ := quaternion_dot a.real b.real

/-- dual_quaternion crate `mul`: `(r1 r2, r1 d2 + d1 r2)`. -/
def dual_quaternion_mul (a b : DualQuat) : DualQuat :=
  ⟨quaternion_mul a.real b.real,
   quaternion_add (quaternion_mul a.real b.dual) (quaternion_mul a.dual b.real)⟩

/-- dual_quaternion crate `normalize`: scale both parts by the inverse
magnitude of the real part. -/
def dual_quaternion_normalize (ext : Ext) (a : DualQuat) : DualQuat :=
  dual_quaternion_scale a (quaternion_len ext a.real)⁻¹

/-- dual_quaternion crate `get_rotation`: the real part. -/
def dual_quaternion_get_rotation (a : DualQuat) : Quat := a.real

/-- dual_quaternion crate `get_translation`: vector part of
`2 * dual * conj(real)`. -/
def dual_quaternion_get_translation (a : DualQuat) : Vec3 :=
  let q := quaternion_scale (quaternion_mul a.dual (quaternion_conj a.real)) 2
  ⟨q.x, q.y, q.z⟩

/-- dual_quaternion crate `from_rotation_and_translation`: real part is the
rotation, dual part is `(0, t) * r / 2`. -/
def dual_quaternion_from_rotation_and_translation (r : Quat) (t : Vec3) : DualQuat :=
  ⟨r, quaternion_scale (quaternion_mul ⟨0, t.x, t.y, t.z⟩ r) (1 / 2)⟩

/-- src/math.rs `lerp_dual_quaternion`: dual-quaternion linear blending
with shortest-path sign selection and renormalization. -/
def lerp_dual_quaternion (ext : Ext) (q1 q2 : DualQuat) (blend_factor : ℚ) : DualQuat :=
  let dot := dual_quaternion_dot q1 q2
  let s := 1 - blend_factor
  let t := if dot > 0 then blend_factor else -blend_factor
  let blended_sum := dual_quaternion_add (dual_quaternion_scale q1 s) (dual_quaternion_scale q2 t)
  dual_quaternion_normalize ext blended_sum

/-- The `from_matrix` of the `Transform` impl for `DualQuaternion<f32>`
(src/transform.rs): rotation from the transposed matrix, translation from
the fourth column. -/
def dual_quaternion_from_matrix (ext : Ext) (m : Mat4) : DualQuat :=
  dual_quaternion_from_rotation_and_translation
    (matrix_to_quaternion ext (mat4_transposed m))
    ⟨m.m03, m.m13, m.m23⟩

/-- The `to_matrix` of the `Transform` impl for `DualQuaternion<f32>`
(src/transform.rs): transposed rotation matrix with the translation
written into the fourth column. -/
def dual_quaternion_to_matrix (a : DualQuat) : Mat4 :=
  let rotation := dual_quaternion_get_rotation a
  let translation := dual_quaternion_get_translation a
  let m := mat4_transposed (quaternion_to_matrix rotation)
  { m with m03 := translation.x, m13 := translation.y, m23 := translation.z }

/-- The subset of the Rust `Transform` trait (src/transform.rs) that the
embedded blend-tree and controller code uses; the generic Rust functions
over `T: Transform` become Lean functions over a `TransformOps T` record. -/
structure TransformOps (T : Type) where
  identity : T
  concat : T → T → T
  lerp : T → T → ℚ → T
  to_matrix : T → Mat4
  from_matrix : Mat4 → T

/-- The `Transform` impl for `Matrix4<f32>` (src/transform.rs): identity
matrix, row-major multiplication as composition, and interpolation through
a dual-quaternion round trip. -/
def mat4Ops (ext : Ext) : TransformOps Mat4 where
  identity := mat4_id
  concat := row_mat4_mul
  lerp := fun a b parameter =>
    dual_quaternion_to_matrix
      (lerp_dual_quaternion ext (dual_quaternion_from_matrix ext a)
        (dual_quaternion_from_matrix ext b) parameter)
  to_matrix := fun m => m
  from_matrix := fun m => m

/-- The `Transform` impl for `DualQuaternion<f32>` (src/transform.rs). -/
def dualQuaternionOps (ext : Ext) : TransformOps DualQuat where
  identity := dual_quaternion_id
  concat := dual_quaternion_mul
  lerp := lerp_dual_quaternion ext
  to_matrix := dual_quaternion_to_matrix
  from_matrix := dual_quaternion_from_matrix ext

/-- Multiplying by the identity matrix on the left is exact. -/
theorem mat4_id_mul (m : Mat4) : row_mat4_mul mat4_id m = m := by
  cases m
  simp [row_mat4_mul, mat4_id]

/-- Multiplying by the identity matrix on the right is exact. -/
theorem mat4_mul_id (m : Mat4) : row_mat4_mul m mat4_id = m := by
  cases m
  simp [row_mat4_mul, mat4_id]

/-- Multiplying by the identity quaternion on the right is exact. -/
theorem quaternion_mul_id (q : Quat) : quaternion_mul q quaternion_id = q := by
  cases q
  simp [quaternion_mul, quaternion_id]

/-- Multiplying by the identity dual quaternion on the right is exact. -/
theorem dual_quaternion_mul_id (a : DualQuat) :
    dual_quaternion_mul a dual_quaternion_id = a := by
  cases a with
  | mk r d =>
    cases r
    cases d
    simp [dual_quaternion_mul, dual_quaternion_id, quaternion_mul, quaternion_id,
      quaternion_add]

/-- C3: for every unit quaternion q and every blend factor t, the
quaternion lerp of q with itself — which picks the sign maximizing the dot
product of its inputs and renormalizes its result — returns q exactly.
The source renormalizes with the fast inverse square root; the embedding
takes that routine as the parameter `ext.inv_sqrt` and assumes it is exact
at the single point where it is evaluated here, namely `inv_sqrt 1 = 1`
(the ideal behaviour of a renormalization of an already-unit quaternion). -/
theorem lerp_quaternion_self_eq (ext : Ext) (q : Quat) (t : ℚ)
    (hunit : q.w * q.w + q.x * q.x + q.y * q.y + q.z * q.z = 1)
    (hinv : ext.inv_sqrt 1 = 1) :
    lerp_quaternion ext q q t = q := by
  obtain ⟨w, x, y, z⟩ := q
  simp only [lerp_quaternion] at hunit ⊢
  rw [hunit, if_pos (by norm_num : (1 : ℚ) > 0)]
  have h2 : ∀ a : ℚ, (1 - t) * a + t * a = a := fun a => by ring
  rw [h2 w, h2 x, h2 y, h2 z, hunit, hinv]
  simp

/-- Witness for C3 at the concrete unit quaternion (3/5, 4/5, 0, 0),
blend factor 1/3, and an `Ext` whose `inv_sqrt` maps every input to 1. -/
theorem lerp_quaternion_self_eq_witness :
    ((3 / 5 : ℚ) * (3 / 5) + (4 / 5) * (4 / 5) + 0 * 0 + 0 * 0 = 1) ∧
      lerp_quaternion ⟨fun _ => 1, fun _ => 1, fun _ _ => quaternion_id,
          fun m => m, fun m => m⟩ ⟨3 / 5, 4 / 5, 0, 0⟩ ⟨3 / 5, 4 / 5, 0, 0⟩ (1 / 3) =
        ⟨3 / 5, 4 / 5, 0, 0⟩ :=
  ⟨by norm_num,
   lerp_quaternion_self_eq ⟨fun _ => 1, fun _ => 1, fun _ _ => quaternion_id,
      fun m => m, fun m => m⟩ ⟨3 / 5, 4 / 5, 0, 0⟩ (1 / 3) (by norm_num) rfl⟩

/-- If an Option-valued function succeeds on every element of a list, then
`mapM` over the list succeeds and the output is the pointwise image. -/
theorem option_mapM_spec {α β : Type} (f : α → Option β) :
    ∀ l : List α, (∀ a ∈ l, ∃ y, f a = some y) →
      ∃ out, l.mapM f = some out ∧ out.length = l.length ∧
        ∀ (k : ℕ) (a : α), l[k]? = some a → ∃ y, f a = some y ∧ out[k]? = some y := by
  intro l
  induction l with
  | nil =>
    intro _
    exact ⟨[], rfl, rfl, by intro k a h; simp at h⟩
  | cons a l ih =>
    intro h
    obtain ⟨y, hy⟩ := h a (List.mem_cons_self a l)
    obtain ⟨out, hout, hlen, hget⟩ := ih (fun b hb => h b (List.mem_cons_of_mem a hb))
    refine ⟨y :: out, ?_, by simpa using hlen, ?_⟩
    · rw [List.mapM_cons, hy, hout]
      rfl
    · intro k b hb
      cases k with
      | zero =>
        simp at hb
        subst hb
        exact ⟨y, hy, by simp⟩
      | succ k =>
        simp only [List.getElem?_cons_succ] at hb ⊢
        exact hget k b hb

/-- src/animation.rs `SQT`: a transform given by separate scale, rotation
and translation factors. -/
structure SQT where
  translation : Vec3
  scale : ℚ
  rotation : Quat
deriving DecidableEq

/-- src/animation.rs `AnimationSample`: per-joint local poses. -/
structure AnimationSample where
  local_poses : List SQT
deriving DecidableEq

/-- src/animation.rs `AnimationClip`: a sequence of samples at a constant
sample rate. -/
structure AnimationClip where
  samples : List AnimationSample
  samples_per_second : ℚ
deriving DecidableEq

/-- src/animation.rs `AnimationClip::set_duration`. -/
def AnimationClip.set_duration (clip : AnimationClip) (duration : ℚ) : AnimationClip :=
  { clip with samples_per_second := clip.samples.length / duration }

/-- src/animation.rs `AnimationClip::get_interpolated_poses_at_time`.
The floating-point `floor`/`ceil` followed by an `as usize` cast becomes
`Int.toNat` of the rational floor/ceiling (faithful for the non-negative
times the claims quantify over). `% self.samples.len()` panics on an empty
clip, modelled by `none`; reading a sample pose past the end of the second
sample's pose list likewise panics, modelled through `Option` binds. The
output buffer writes of the source become the returned list. -/
def AnimationClip.get_interpolated_poses_at_time (ext : Ext) (clip : AnimationClip)
    (elapsed_time : ℚ) : Option (List SQT) :=
  let interpolated_index := elapsed_time * clip.samples_per_second
  let index_1 := (⌊interpolated_index⌋).toNat
  let index_2 := (⌈interpolated_index⌉).toNat
  let blend_factor := interpolated_index - (index_1 : ℚ)
  if clip.samples.length = 0 then none
  else do
    let sample_1 ← clip.samples[index_1 % clip.samples.length]?
    let sample_2 ← clip.samples[index_2 % clip.samples.length]?
    (List.range sample_1.local_poses.length).mapM (fun i => do
      let pose_1 ← sample_1.local_poses[i]?
      let pose_2 ← sample_2.local_poses[i]?
      pure (⟨vec3_lerp pose_1.translation pose_2.translation blend_factor,
             lerp pose_1.scale pose_2.scale blend_factor,
             lerp_quaternion ext pose_1.rotation pose_2.rotation blend_factor⟩ : SQT))

/-- C2: for every clip with at least one sample and every non-negative
time t (the f32→usize cast of the source is undefined for negative
indices, so time is taken non-negative, with a positive sample rate as
guaranteed at construction), sampling computes idx = t * samples_per_second,
takes the samples at floor(idx) mod sample-count and ceil(idx) mod
sample-count, uses blend factor idx - floor(idx), and outputs per joint
the lerp of the two samples' poses by that factor (componentwise lerp for
translation and scale, `lerp_quaternion` for rotation). -/
theorem get_interpolated_poses_at_time_spec (ext : Ext) (clip : AnimationClip)
    (t : ℚ) (nJ : ℕ)
    (ht : 0 ≤ t) (hsps : 0 < clip.samples_per_second) (hne : clip.samples ≠ [])
    (hJ : ∀ s ∈ clip.samples, s.local_poses.length = nJ) :
    ∃ sample_1 sample_2 out,
      clip.samples[(⌊t * clip.samples_per_second⌋).toNat % clip.samples.length]? =
        some sample_1 ∧
      clip.samples[(⌈t * clip.samples_per_second⌉).toNat % clip.samples.length]? =
        some sample_2 ∧
      clip.get_interpolated_poses_at_time ext t = some out ∧
      out.length = nJ ∧
      ∀ (j : ℕ) (pose_1 pose_2 : SQT), sample_1.local_poses[j]? = some pose_1 →
        sample_2.local_poses[j]? = some pose_2 →
        out[j]? = some
          ⟨vec3_lerp pose_1.translation pose_2.translation
             (t * clip.samples_per_second - ((⌊t * clip.samples_per_second⌋ : ℤ) : ℚ)),
           lerp pose_1.scale pose_2.scale
             (t * clip.samples_per_second - ((⌊t * clip.samples_per_second⌋ : ℤ) : ℚ)),
           lerp_quaternion ext pose_1.rotation pose_2.rotation
             (t * clip.samples_per_second - ((⌊t * clip.samples_per_second⌋ : ℤ) : ℚ))⟩ := by
  have hn : 0 < clip.samples.length := List.length_pos.mpr hne
  have hidx : (0 : ℚ) ≤ t * clip.samples_per_second := mul_nonneg ht (le_of_lt hsps)
  have hcast : (((⌊t * clip.samples_per_second⌋).toNat : ℕ) : ℚ) =
      ((⌊t * clip.samples_per_second⌋ : ℤ) : ℚ) := by
    rw [← Int.cast_natCast, Int.toNat_of_nonneg (Int.floor_nonneg.mpr hidx)]
  have h1lt : (⌊t * clip.samples_per_second⌋).toNat % clip.samples.length <
      clip.samples.length := Nat.mod_lt _ hn
  have h2lt : (⌈t * clip.samples_per_second⌉).toNat % clip.samples.length <
      clip.samples.length := Nat.mod_lt _ hn
  obtain ⟨sample_1, hs1⟩ : ∃ s, clip.samples[(⌊t * clip.samples_per_second⌋).toNat %
      clip.samples.length]? = some s := by
    rw [List.getElem?_eq_getElem h1lt]
    exact ⟨_, rfl⟩
  obtain ⟨sample_2, hs2⟩ : ∃ s, clip.samples[(⌈t * clip.samples_per_second⌉).toNat %
      clip.samples.length]? = some s := by
    rw [List.getElem?_eq_getElem h2lt]
    exact ⟨_, rfl⟩
  have hmem1 : sample_1 ∈ clip.samples := by
    rw [List.getElem?_eq_getElem h1lt] at hs1
    cases hs1
    exact List.getElem_mem _
  have hmem2 : sample_2 ∈ clip.samples := by
    rw [List.getElem?_eq_getElem h2lt] at hs2
    cases hs2
    exact List.getElem_mem _
  have hl1 : sample_1.local_poses.length = nJ := hJ _ hmem1
  have hl2 : sample_2.local_poses.length = nJ := hJ _ hmem2
  obtain ⟨out, hout, hlen, hget⟩ := option_mapM_spec
    (fun i => do
      let pose_1 ← sample_1.local_poses[i]?
      let pose_2 ← sample_2.local_poses[i]?
      pure (⟨vec3_lerp pose_1.translation pose_2.translation
               (t * clip.samples_per_second -
                 (((⌊t * clip.samples_per_second⌋).toNat : ℕ) : ℚ)),
             lerp pose_1.scale pose_2.scale
               (t * clip.samples_per_second -
                 (((⌊t * clip.samples_per_second⌋).toNat : ℕ) : ℚ)),
             lerp_quaternion ext pose_1.rotation pose_2.rotation
               (t * clip.samples_per_second -
                 (((⌊t * clip.samples_per_second⌋).toNat : ℕ) : ℚ))⟩ : SQT))
    (List.range sample_1.local_poses.length)
    (by
      intro i hi
      rw [List.mem_range, hl1] at hi
      obtain ⟨p1, hp1⟩ : ∃ p, sample_1.local_poses[i]? = some p := by
        rw [List.getElem?_eq_getElem (by rw [hl1]; exact hi)]
        exact ⟨_, rfl⟩
      obtain ⟨p2, hp2⟩ : ∃ p, sample_2.local_poses[i]? = some p := by
        rw [List.getElem?_eq_getElem (by rw [hl2]; exact hi)]
        exact ⟨_, rfl⟩
      simp only [hp1, hp2, Option.some_bind]
      exact ⟨_, rfl⟩)
  refine ⟨sample_1, sample_2, out, hs1, hs2, ?_, by rw [hlen, List.length_range, hl1], ?_⟩
  · unfold AnimationClip.get_interpolated_poses_at_time
    rw [if_neg (Nat.pos_iff_ne_zero.mp hn)]
    simp only [hs1, hs2, Option.some_bind]
    exact hout
  · intro j p1 p2 hp1 hp2
    have hj1 : j < sample_1.local_poses.length := by
      by_contra h
      rw [List.getElem?_eq_none (by omega)] at hp1
      exact Option.noConfusion hp1
    have hrange : (List.range sample_1.local_poses.length)[j]? = some j := by
      rw [List.getElem?_range hj1]
    obtain ⟨y, hfy, hy⟩ := hget j j hrange
    simp only [hp1, hp2, Option.some_bind] at hfy
    have hyv := Option.some.inj hfy
    rw [hy, ← hyv, ← hcast]

/-- A trivial instantiation of the external numeric routines, used by the
concrete witnesses: square roots and inverse square roots are the constant
1, rotations and inversions are constants. -/
def extOne : Ext :=
  ⟨fun _ => 1, fun _ => 1, fun _ _ => quaternion_id, fun m => m, fun m => m⟩

/-- A concrete two-sample clip (one joint) at 2 samples per second, used
by the witness for the clip-sampling claim. -/
def witnessClip : AnimationClip :=
  ⟨[⟨[⟨⟨0, 0, 0⟩, 1, ⟨1, 0, 0, 0⟩⟩]⟩, ⟨[⟨⟨2, 0, 0⟩, 3, ⟨0, 1, 0, 0⟩⟩]⟩], 2⟩

/-- Witness for the clip-sampling claim at t = 1/4 (so idx = 1/2, the two
samples are 0 and 1, and the blend factor is 1/2). -/
theorem get_interpolated_poses_at_time_spec_witness :
    ((0 : ℚ) ≤ 1 / 4) ∧ (0 < witnessClip.samples_per_second) ∧
      (witnessClip.samples ≠ []) ∧
      (∀ s ∈ witnessClip.samples, s.local_poses.length = 1) ∧
      (∃ sample_1 sample_2 out,
        witnessClip.samples[(⌊(1 / 4 : ℚ) * witnessClip.samples_per_second⌋).toNat %
          witnessClip.samples.length]? = some sample_1 ∧
        witnessClip.samples[(⌈(1 / 4 : ℚ) * witnessClip.samples_per_second⌉).toNat %
          witnessClip.samples.length]? = some sample_2 ∧
        witnessClip.get_interpolated_poses_at_time extOne (1 / 4) = some out ∧
        out.length = 1 ∧
        ∀ (j : ℕ) (pose_1 pose_2 : SQT), sample_1.local_poses[j]? = some pose_1 →
          sample_2.local_poses[j]? = some pose_2 →
          out[j]? = some
            ⟨vec3_lerp pose_1.translation pose_2.translation
               ((1 / 4 : ℚ) * witnessClip.samples_per_second -
                 ((⌊(1 / 4 : ℚ) * witnessClip.samples_per_second⌋ : ℤ) : ℚ)),
             lerp pose_1.scale pose_2.scale
               ((1 / 4 : ℚ) * witnessClip.samples_per_second -
                 ((⌊(1 / 4 : ℚ) * witnessClip.samples_per_second⌋ : ℤ) : ℚ)),
             lerp_quaternion extOne pose_1.rotation pose_2.rotation
               ((1 / 4 : ℚ) * witnessClip.samples_per_second -
                 ((⌊(1 / 4 : ℚ) * witnessClip.samples_per_second⌋ : ℤ) : ℚ))⟩) :=
  ⟨by norm_num, by norm_num [witnessClip], by decide, by decide,
   get_interpolated_poses_at_time_spec extOne witnessClip (1 / 4) 1
     (by norm_num) (by norm_num [witnessClip]) (by decide) (by decide)⟩

/-- src/skeleton.rs `ROOT_JOINT_PARENT_INDEX` (the u8 sentinel 255). -/
def ROOT_JOINT_PARENT_INDEX : ℕ := 255

/-- src/skeleton.rs `Joint` (the u8 `JointIndex` becomes ℕ). -/
structure Joint where
  name : String
  parent_index : ℕ
  inverse_bind_pose : Mat4
deriving DecidableEq

/-- src/skeleton.rs `Joint::is_root`. -/
def Joint.is_root (j : Joint) : Prop := j.parent_index = ROOT_JOINT_PARENT_INDEX

instance (j : Joint) : Decidable j.is_root :=
  inferInstanceAs (Decidable (j.parent_index = ROOT_JOINT_PARENT_INDEX))

/-- src/skeleton.rs `Skeleton`. -/
structure Skeleton where
  joints : List Joint
deriving DecidableEq

/-- Loop body of src/controller.rs `AnimationController::calculate_global_poses`,
processing the joints in storage order. The accumulator is the prefix of
the output buffer written so far; the current joint index is its length.
A non-root joint reads `global_poses[joint.parent_index]`; when that entry
has not been written yet (or is out of range) the source reads stale or
out-of-range caller memory, which the pure embedding models as `none`,
as it does the read of a missing local pose. -/
def calculate_global_poses_aux {A B : Type} (TO : TransformOps B)
    (from_transform : A → B) (local_poses : List A) :
    List Joint → List B → Option (List B)
  | [], global_poses => some global_poses
  | joint :: rest, global_poses =>
    (if joint.is_root then some TO.identity else global_poses[joint.parent_index]?).bind
      fun parent_pose => (local_poses[global_poses.length]?).bind
        fun local_pose =>
          calculate_global_poses_aux TO from_transform local_poses rest
            (global_poses ++ [TO.concat parent_pose (from_transform local_pose)])

/-- src/controller.rs `AnimationController::calculate_global_poses`: for
each joint in storage order, the parent pose is the identity for a root
joint and the already-computed global pose of the parent otherwise, and
`global_poses[joint_index] = parent_pose.concat(from_transform(local_pose))`. -/
def AnimationController.calculate_global_poses {A B : Type} (TO : TransformOps B)
    (from_transform : A → B) (skeleton : Skeleton) (local_poses : List A) :
    Option (List B) :=
  calculate_global_poses_aux TO from_transform local_poses skeleton.joints []

/-- Invariant of the global-pose loop, proved by induction along the joint
list with an arbitrary already-written prefix. -/
theorem calculate_global_poses_aux_spec {A B : Type} (TO : TransformOps B)
    (from_transform : A → B) (local_poses : List A) :
    ∀ (joints : List Joint) (acc : List B),
    (∀ (k : ℕ) (j : Joint), joints[k]? = some j → ¬ j.is_root →
      j.parent_index < acc.length + k) →
    local_poses.length = acc.length + joints.length →
    ∃ gp, calculate_global_poses_aux TO from_transform local_poses joints acc = some gp ∧
      gp.length = local_poses.length ∧
      (∀ m : ℕ, m < acc.length → gp[m]? = acc[m]?) ∧
      (∀ (k : ℕ) (j : Joint), joints[k]? = some j →
        ∃ lp, local_poses[acc.length + k]? = some lp ∧
          ∃ pp, gp[acc.length + k]? = some (TO.concat pp (from_transform lp)) ∧
            ((j.is_root ∧ pp = TO.identity) ∨
             (¬ j.is_root ∧ gp[j.parent_index]? = some pp))) := by
  intro joints
  induction joints with
  | nil =>
    intro acc _ hl
    refine ⟨acc, rfl, by simpa using hl.symm, fun m _ => rfl, ?_⟩
    intro k j hk
    simp at hk
  | cons joint rest ih =>
    intro acc hw hl
    have hpar : ∃ pp,
        (if joint.is_root then some TO.identity else acc[joint.parent_index]?) = some pp ∧
        ((joint.is_root ∧ pp = TO.identity) ∨
         (¬ joint.is_root ∧ acc[joint.parent_index]? = some pp)) := by
      by_cases hr : joint.is_root
      · exact ⟨TO.identity, by rw [if_pos hr], Or.inl ⟨hr, rfl⟩⟩
      · have hlt : joint.parent_index < acc.length := by
          simpa using hw 0 joint (by simp) hr
        refine ⟨acc[joint.parent_index], ?_, Or.inr ⟨hr, List.getElem?_eq_getElem hlt⟩⟩
        rw [if_neg hr, List.getElem?_eq_getElem hlt]
    obtain ⟨pp, hppeq, hppcase⟩ := hpar
    have hlplt : acc.length < local_poses.length := by
      rw [hl, List.length_cons]
      omega
    obtain ⟨lp, hlpeq⟩ : ∃ lp, local_poses[acc.length]? = some lp := by
      rw [List.getElem?_eq_getElem hlplt]
      exact ⟨_, rfl⟩
    have hstep : calculate_global_poses_aux TO from_transform local_poses
        (joint :: rest) acc =
        calculate_global_poses_aux TO from_transform local_poses rest
          (acc ++ [TO.concat pp (from_transform lp)]) := by
      rw [calculate_global_poses_aux, hppeq, hlpeq]
      rfl
    set v := TO.concat pp (from_transform lp) with hv
    have hacc' : (acc ++ [v]).length = acc.length + 1 := by simp
    have hw' : ∀ (k : ℕ) (j : Joint), rest[k]? = some j → ¬ j.is_root →
        j.parent_index < (acc ++ [v]).length + k := by
      intro k j hk hr
      have := hw (k + 1) j (by simpa using hk) hr
      rw [hacc']
      omega
    have hl' : local_poses.length = (acc ++ [v]).length + rest.length := by
      rw [hacc', hl, List.length_cons]
      omega
    obtain ⟨gp, hgp, hglen, hpre, hentries⟩ := ih (acc ++ [v]) hw' hl'
    refine ⟨gp, by rw [hstep]; exact hgp, hglen, ?_, ?_⟩
    · intro m hm
      have h1 : gp[m]? = (acc ++ [v])[m]? := hpre m (by rw [hacc']; omega)
      rw [h1, List.getElem?_append_left hm]
    · intro k j hk
      cases k with
      | zero =>
        have hkj : joint = j := by
          have := hk
          simp at this
          exact this
        subst hkj
        refine ⟨lp, by simpa using hlpeq, pp, ?_, ?_⟩
        · have h1 : gp[acc.length]? = (acc ++ [v])[acc.length]? :=
            hpre acc.length (by rw [hacc']; omega)
          rw [Nat.add_zero, h1, List.getElem?_concat_length]
        · rcases hppcase with ⟨hr, hpp⟩ | ⟨hr, hpp⟩
          · exact Or.inl ⟨hr, hpp⟩
          · refine Or.inr ⟨hr, ?_⟩
            have hlt : joint.parent_index < acc.length := by
              simpa using hw 0 joint (by simp) hr
            have h1 : gp[joint.parent_index]? = (acc ++ [v])[joint.parent_index]? :=
              hpre joint.parent_index (by rw [hacc']; omega)
            rw [h1, List.getElem?_append_left hlt]
            exact hpp
      | succ k =>
        have hk' : rest[k]? = some j := by simpa using hk
        obtain ⟨lp', hlp', pp', hpp', hcase'⟩ := hentries k j hk'
        have hidx : (acc ++ [v]).length + k = acc.length + (k + 1) := by
          rw [hacc']
          omega
        rw [hidx] at hlp' hpp'
        exact ⟨lp', hlp', pp', hpp', hcase'⟩

/-- C1: for every skeleton whose non-root joints have `parent_index`
referring to an earlier joint, and every array of local poses (one per
joint), `calculate_global_poses` iterates joints in storage order and
produces `global[i] = local[i]` when joint i is the root, and
`global[i] = concat(global[parent_index[i]], local[i])` otherwise.
Stated at the `Matrix4<f32>` transform instance, where composition is
`row_mat4_mul` and `from_transform` is the identity. -/
theorem calculate_global_poses_spec (ext : Ext) (skeleton : Skeleton)
    (local_poses : List Mat4)
    (hw : ∀ (i : ℕ) (j : Joint), skeleton.joints[i]? = some j → ¬ j.is_root →
      j.parent_index < i)
    (hl : local_poses.length = skeleton.joints.length) :
    ∃ global_poses,
      AnimationController.calculate_global_poses (mat4Ops ext) (fun m => m)
        skeleton local_poses = some global_poses ∧
      global_poses.length = skeleton.joints.length ∧
      ∀ (i : ℕ) (j : Joint), skeleton.joints[i]? = some j →
        (j.is_root → global_poses[i]? = local_poses[i]?) ∧
        (¬ j.is_root → ∃ pg lp, global_poses[j.parent_index]? = some pg ∧
          local_poses[i]? = some lp ∧
          global_poses[i]? = some (row_mat4_mul pg lp)) := by
  obtain ⟨gp, hgp, hglen, _, hentries⟩ :=
    calculate_global_poses_aux_spec (mat4Ops ext) (fun m => m) local_poses
      skeleton.joints []
      (by
        intro k j hk hr
        simpa using hw k j hk hr)
      (by simpa using hl)
  refine ⟨gp, hgp, by rw [hglen, hl], ?_⟩
  intro i j hij
  obtain ⟨lp, hlp, pp, hpp, hcase⟩ := hentries i j hij
  simp only [List.length_nil, Nat.zero_add] at hlp hpp
  constructor
  · intro hr
    rcases hcase with ⟨_, hid⟩ | ⟨hnr, _⟩
    · subst hid
      have : (mat4Ops ext).concat (mat4Ops ext).identity lp = lp := mat4_id_mul lp
      rw [hlp, hpp, this]
    · exact absurd hr hnr
  · intro hnr
    rcases hcase with ⟨hr, _⟩ | ⟨_, hparent⟩
    · exact absurd hr hnr
    · exact ⟨pp, lp, hparent, hlp, hpp⟩

/-- A two-joint skeleton (a root and one child) for the global-pose
witness. -/
def witnessSkeleton : Skeleton :=
  ⟨[⟨"root", 255, mat4_id⟩, ⟨"child", 0, mat4_id⟩]⟩

/-- Two local poses (translation matrices) for the global-pose witness. -/
def witnessLocals : List Mat4 :=
  [mat4_set_translation mat4_id ⟨1, 2, 3⟩, mat4_set_translation mat4_id ⟨4, 5, 6⟩]

/-- Witness for the global-pose claim on the concrete two-joint skeleton. -/
theorem calculate_global_poses_spec_witness :
    (∀ (i : ℕ) (j : Joint), witnessSkeleton.joints[i]? = some j → ¬ j.is_root →
      j.parent_index < i) ∧
    witnessLocals.length = witnessSkeleton.joints.length ∧
    (∃ global_poses,
      AnimationController.calculate_global_poses (mat4Ops extOne) (fun m => m)
        witnessSkeleton witnessLocals = some global_poses ∧
      global_poses.length = witnessSkeleton.joints.length ∧
      ∀ (i : ℕ) (j : Joint), witnessSkeleton.joints[i]? = some j →
        (j.is_root → global_poses[i]? = witnessLocals[i]?) ∧
        (¬ j.is_root → ∃ pg lp, global_poses[j.parent_index]? = some pg ∧
          witnessLocals[i]? = some lp ∧
          global_poses[i]? = some (row_mat4_mul pg lp))) := by
  have hw : ∀ (i : ℕ) (j : Joint), witnessSkeleton.joints[i]? = some j →
      ¬ j.is_root → j.parent_index < i := by
    intro i j h hr
    match i with
    | 0 =>
      have h' : some (⟨"root", 255, mat4_id⟩ : Joint) = some j := h
      cases h'
      exact absurd rfl hr
    | 1 =>
      have h' : some (⟨"child", 0, mat4_id⟩ : Joint) = some j := h
      cases h'
      exact Nat.zero_lt_one
    | (n + 2) => exact Option.noConfusion h
  exact ⟨hw, by decide,
    calculate_global_poses_spec extOne witnessSkeleton witnessLocals hw (by decide)⟩

/-- Lookup in a `HashMap<String, _>` modelled as an association list
(first binding wins). Rust's `map[key]` indexing panics on a missing key;
every indexing site binds on this `Option`. -/
def hashMapGet {α : Type} : List (String × α) → String → Option α
  | [], _ => none
  | (k, v) :: rest, name => if k = name then some v else hashMapGet rest name

/-- The controller parameter map (`HashMap<String, f32>`). -/
abbrev Params := List (String × ℚ)

/-- Rust range slicing `&l[lo .. hi]`: panics (`none`) when the range does
not fit the slice. -/
def rust_slice {α : Type} (l : List α) (lo hi : ℕ) : Option (List α) :=
  if lo ≤ hi ∧ hi ≤ l.length then some ((l.take hi).drop lo) else none

/-- Rust indexed store `l[i] = v`: panics (`none`) out of range. -/
def listSet {α : Type} (l : List α) (i : ℕ) (v : α) : Option (List α) :=
  if i < l.length then some (l.set i v) else none

/-- src/blend_tree.rs `AnimNodeHandle`. -/
inductive AnimNodeHandle where
  | None
  | LerpAnimNodeHandle (i : ℕ)
  | AdditiveAnimNodeHandle (i : ℕ)
  | ClipAnimNodeHandle (i : ℕ)
  | IKAnimNodeHandle (i : ℕ)
deriving DecidableEq

/-- src/blend_tree.rs `LerpAnimNode`. -/
structure LerpAnimNode where
  input_1 : AnimNodeHandle
  input_2 : AnimNodeHandle
  blend_param : String
deriving DecidableEq

/-- src/blend_tree.rs `AdditiveAnimNode`. -/
structure AdditiveAnimNode where
  base_input : AnimNodeHandle
  additive_input : AnimNodeHandle
  blend_param : String
deriving DecidableEq

/-- src/blend_tree.rs `IKNode` (the u8 effector index becomes ℕ). -/
structure IKNode where
  input : AnimNodeHandle
  blend_param : String
  target_x_param : String
  target_y_param : String
  target_z_param : String
  bend_x_param : String
  bend_y_param : String
  bend_z_param : String
  effector_bone_index : ℕ
deriving DecidableEq

/-- Modelled from the spec: the generic `AnimationClip<T>` referenced by
src/blend_tree.rs is not under src/ (src/animation.rs holds an earlier
SQT-only revision); per §3 it owns an ordered sequence of per-joint sample
sequences with a constant `samples_per_second`. -/
structure AnimationClipT (T : Type) where
  samples : List (List T)
  samples_per_second : ℚ
deriving DecidableEq

/-- Modelled from the spec: the clip duration; §4.2 gives
`set_duration(d)` as `samples_per_second = sample_count / d`, so the
duration is `sample_count / samples_per_second`. -/
def AnimationClipT.get_duration {T : Type} (clip : AnimationClipT T) : ℚ :=
  (clip.samples.length : ℚ) / clip.samples_per_second

/-- Modelled from the spec: `ClipInstance` (§3): a playback cursor holding
a shared clip, `start_time`, `playback_rate` and `time_offset`. -/
structure ClipInstance (T : Type) where
  clip : AnimationClipT T
  start_time : ℚ
  playback_rate : ℚ
  time_offset : ℚ
deriving DecidableEq

/-- Modelled from the spec: `get_local_time(t) =
(t - start_time) * playback_rate + time_offset` (§4.2). -/
def ClipInstance.get_local_time {T : Type} (ci : ClipInstance T) (global_time : ℚ) : ℚ :=
  (global_time - ci.start_time) * ci.playback_rate + ci.time_offset

/-- Modelled from the spec: the current clip duration read by
synchronization (§4.6 reads "each side's current clip duration"). -/
def ClipInstance.get_duration {T : Type} (ci : ClipInstance T) : ℚ :=
  ci.clip.get_duration

/-- Modelled from the spec: `set_playback_rate(global_time, new_rate)`
(§4.2) computes the local time at the old rate and solves for the new
`time_offset` that leaves the local time at `global_time` unchanged under
the new rate, before committing the new rate. -/
def ClipInstance.set_playback_rate {T : Type} (ci : ClipInstance T)
    (global_time new_rate : ℚ) : ClipInstance T :=
  let local_time := ci.get_local_time global_time
  { ci with
    playback_rate := new_rate,
    time_offset := local_time - (global_time - ci.start_time) * new_rate }

/-- Modelled from the spec: a fresh `ClipInstance` starts at rate 1 with
no offset (§3: transitions and instances are created with neutral playback
state). -/
def ClipInstance.new {T : Type} (clip : AnimationClipT T) : ClipInstance T :=
  ⟨clip, 0, 1, 0⟩

/-- src/blend_tree.rs `ClipAnimNode`. -/
structure ClipAnimNode (T : Type) where
  clip : ClipInstance T
deriving DecidableEq

/-- src/blend_tree.rs `AnimBlendTree`: per-kind node arenas, a root handle
and the target skeleton. -/
structure AnimBlendTree (T : Type) where
  root_node : AnimNodeHandle
  lerp_nodes : List LerpAnimNode
  additive_nodes : List AdditiveAnimNode
  ik_nodes : List IKNode
  clip_nodes : List (ClipAnimNode T)
  skeleton : Skeleton
deriving DecidableEq

/-- src/blend_tree.rs `LerpAnimNode::get_output_pose`, with the two child
evaluations abstracted into their results: `input_1_poses` is what the
first input wrote into the 64-element scratch buffer slice and
`output_poses` is what the second input wrote into the output slice (whose
length is the source's `sample_count`). The blend-parameter read panics on
a missing key and the scratch slice `input_poses[0 .. sample_count]`
panics when `sample_count > 64`; reads of scratch entries the child did
not write return the buffer's identity initialization. -/
def LerpAnimNode.get_output_pose {T : Type} (TO : TransformOps T)
    (node : LerpAnimNode) (params : Params)
    (input_1_poses output_poses : List T) : Option (List T) :=
  let sample_count := output_poses.length
  (hashMapGet params node.blend_param).bind fun blend_parameter =>
    (rust_slice (List.replicate 64 TO.identity) 0 sample_count).bind fun _ =>
      let input_poses := input_1_poses ++ List.replicate (64 - input_1_poses.length) TO.identity
      some ((List.range sample_count).map fun i =>
        TO.lerp (input_poses.getD i TO.identity) (output_poses.getD i TO.identity)
          blend_parameter)

/-- src/blend_tree.rs `AdditiveAnimNode::get_output_pose`, with the child
evaluations abstracted as for the lerp node: the additive pose is the
additive input blended from the identity by the blend parameter, composed
onto the base pose. -/
def AdditiveAnimNode.get_output_pose {T : Type} (TO : TransformOps T)
    (node : AdditiveAnimNode) (params : Params)
    (base_poses output_poses : List T) : Option (List T) :=
  let sample_count := output_poses.length
  (hashMapGet params node.blend_param).bind fun blend_parameter =>
    (rust_slice (List.replicate 64 TO.identity) 0 sample_count).bind fun _ =>
      let input_poses := base_poses ++ List.replicate (64 - base_poses.length) TO.identity
      some ((List.range sample_count).map fun i =>
        let pose_1 := input_poses.getD i TO.identity
        let pose_2 := output_poses.getD i TO.identity
        TO.concat pose_1 (TO.lerp TO.identity pose_2 blend_parameter))

/-- Loop body of the spec-modelled `Skeleton::calculate_global_poses`
(§4.3), writing global poses into the caller's fixed buffer in storage
order; a parent-before-child violation fails (per the spec) and a write
past the buffer end panics. -/
def skeleton_calculate_global_poses_aux {T : Type} (TO : TransformOps T)
    (local_poses : List T) :
    List Joint → List Mat4 → ℕ → Option (List Mat4)
  | [], buffer, _ => some buffer
  | joint :: rest, buffer, i =>
    (local_poses[i]?).bind fun local_pose =>
      (if joint.is_root then some (TO.to_matrix local_pose)
       else if joint.parent_index < i then
         (buffer[joint.parent_index]?).map fun parent_pose =>
           row_mat4_mul parent_pose (TO.to_matrix local_pose)
       else none).bind fun global_pose =>
        (listSet buffer i global_pose).bind fun buffer' =>
          skeleton_calculate_global_poses_aux TO local_poses rest buffer' (i + 1)

/-- Modelled from the spec: `Skeleton::calculate_global_poses` called by
the IK node is not under src/ (src/skeleton.rs holds an earlier revision
without it); §4.3: iterate joints in storage order, for the root
`global = local`, otherwise `global[i] = concat(global[parent_index[i]],
local[i])`, writing into the caller's buffer of `Matrix4` poses. -/
def Skeleton.calculate_global_poses {T : Type} (TO : TransformOps T)
    (skeleton : Skeleton) (local_poses : List T) (global_poses : List Mat4) :
    Option (List Mat4) :=
  skeleton_calculate_global_poses_aux TO local_poses skeleton.joints global_poses 0

/-- Modelled from the spec: `solve_ik_2d` is not under src/; §4.5: solve
the planar two-link IK for the elbow position with the law of cosines;
when the (projected) target distance exceeds L1+L2 or is below |L1−L2|
the configuration is unreachable and the solver reports failure. The
distance comparisons are carried out on squares, which is equivalent for
the non-negative lengths and avoids the square root in the test. -/
def solve_ik_2d (ext : Ext) (length_1 length_2 : ℚ) (target : ℚ × ℚ) :
    Option (ℚ × ℚ) :=
  let dist_sq := target.1 ^ 2 + target.2 ^ 2
  if dist_sq > (length_1 + length_2) ^ 2 ∨ dist_sq < (length_1 - length_2) ^ 2 then
    none
  else
    let dist := ext.sqrt dist_sq
    let elbow_x := (dist_sq + length_1 ^ 2 - length_2 ^ 2) / (2 * dist)
    let elbow_y := ext.sqrt (length_1 ^ 2 - elbow_x ^ 2)
    some (elbow_x, elbow_y)

/-- The values computed by src/blend_tree.rs `IKNode::get_output_pose`
before the solver is consulted (lines 358–422 of the source): parameter
reads, the effector/middle/root joint chain, global poses, bone lengths,
the bend plane and the plane-projected target. -/
structure IKPrelude where
  global_poses : List Mat4
  root_bone_index : ℕ
  middle_bone_index : ℕ
  root_bone_parent_index : ℕ
  root_bone_position : Vec3
  middle_bone_position : Vec3
  effector_bone_position : Vec3
  effector_target_position : Vec3
  length_1 : ℚ
  length_2 : ℚ
  plane_rotation : Mat3
  plane_target : Vec3
deriving DecidableEq

instance : Inhabited IKPrelude :=
  ⟨⟨[], 0, 0, 0, ⟨0, 0, 0⟩, ⟨0, 0, 0⟩, ⟨0, 0, 0⟩, ⟨0, 0, 0⟩, 0, 0,
    ⟨⟨0, 0, 0⟩, ⟨0, 0, 0⟩, ⟨0, 0, 0⟩⟩, ⟨0, 0, 0⟩⟩⟩

/-- The prefix of src/blend_tree.rs `IKNode::get_output_pose` up to (and
excluding) the `solve_ik_2d` call, with the input-node evaluation
abstracted into its result `output_poses`. Parameter reads and joint/array
indexing panic through `Option`; the global-pose buffer is the source's
`[Matrix4::identity(); 64]`. -/
def IKNode.prelude {T : Type} (ext : Ext) (TO : TransformOps T) (node : IKNode)
    (skeleton : Skeleton) (params : Params) (output_poses : List T) :
    Option IKPrelude :=
  (hashMapGet params node.target_x_param).bind fun t_x =>
  (hashMapGet params node.target_y_param).bind fun t_y =>
  (hashMapGet params node.target_z_param).bind fun t_z =>
  let effector_target_position : Vec3 := ⟨t_x, t_y, t_z⟩
  let effector_bone_index := node.effector_bone_index
  (skeleton.joints[effector_bone_index]?).bind fun joint_eff =>
  let middle_bone_index := joint_eff.parent_index
  (skeleton.joints[middle_bone_index]?).bind fun joint_mid =>
  let root_bone_index := joint_mid.parent_index
  (skeleton.joints[root_bone_index]?).bind fun joint_root =>
  let root_bone_parent_index := joint_root.parent_index
  (Skeleton.calculate_global_poses TO skeleton output_poses
      (List.replicate 64 mat4_id)).bind fun global_poses =>
  (global_poses[root_bone_index]?).bind fun gp_root =>
  (global_poses[middle_bone_index]?).bind fun gp_mid =>
  (global_poses[effector_bone_index]?).bind fun gp_eff =>
  let root_bone_position := mat4_transform_vector gp_root ⟨0, 0, 0⟩
  let middle_bone_position := mat4_transform_vector gp_mid ⟨0, 0, 0⟩
  let effector_bone_position := mat4_transform_vector gp_eff ⟨0, 0, 0⟩
  let length_1 := vec3_len ext (vec3_sub root_bone_position middle_bone_position)
  let length_2 := vec3_len ext (vec3_sub middle_bone_position effector_bone_position)
  let root_to_effector := vec3_normalized ext
    (vec3_sub effector_target_position root_bone_position)
  (hashMapGet params node.bend_x_param).bind fun b_x =>
  (hashMapGet params node.bend_y_param).bind fun b_y =>
  (hashMapGet params node.bend_z_param).bind fun b_z =>
  let bend_direction : Vec3 := ⟨b_x, b_y, b_z⟩
  let plane_normal :=
    if vec3_len ext bend_direction = 0 then
      vec3_normalized ext
        (vec3_cross (vec3_sub middle_bone_position root_bone_position) root_to_effector)
    else
      vec3_normalized ext
        (vec3_cross (vec3_normalized ext bend_direction) root_to_effector)
  let plane_y_direction := vec3_normalized ext (vec3_cross root_to_effector plane_normal)
  let plane_rotation : Mat3 := ⟨root_to_effector, plane_y_direction, plane_normal⟩
  let plane_target := row_mat3_transform plane_rotation
    (vec3_sub effector_target_position root_bone_position)
  some ⟨global_poses, root_bone_index, middle_bone_index, root_bone_parent_index,
    root_bone_position, middle_bone_position, effector_bone_position,
    effector_target_position, length_1, length_2, plane_rotation, plane_target⟩

/-- src/blend_tree.rs `IKNode::get_output_pose`, with the input-node
evaluation abstracted into its result `output_poses`. After the prelude,
an unreachable solve leaves the output poses unchanged; a successful solve
copies the first 64 output poses, rewrites the root and middle bones from
the solved elbow position, and blends the result back onto the input by
the blend parameter. -/
def IKNode.get_output_pose {T : Type} (ext : Ext) (TO : TransformOps T)
    (node : IKNode) (skeleton : Skeleton) (params : Params)
    (output_poses : List T) : Option (List T) :=
  (IKNode.prelude ext TO node skeleton params output_poses).bind fun pre =>
    match solve_ik_2d ext pre.length_1 pre.length_2
        (pre.plane_target.x, pre.plane_target.y) with
    | none => some output_poses
    | some elbow_target =>
      ((List.range 64).mapM fun i => output_poses[i]?).bind fun target_poses =>
      let middle_bone_plane : Vec3 := ⟨elbow_target.1, elbow_target.2, 0⟩
      let middle_bone_target := vec3_add
        (row_mat3_transform (ext.mat3_inv pre.plane_rotation) middle_bone_plane)
        pre.root_bone_position
      let original_direction := vec3_normalized ext
        (vec3_sub pre.middle_bone_position pre.root_bone_position)
      let target_direction := vec3_normalized ext
        (vec3_sub middle_bone_target pre.root_bone_position)
      let rotation_change := ext.rotation_from_to target_direction original_direction
      (pre.global_poses[pre.root_bone_index]?).bind fun gp_root =>
      let original_rotation := mat4_get_rotation ext gp_root
      let new_rotation := quaternion_mul original_rotation rotation_change
      let gp_root' := mat4_set_rotation gp_root new_rotation
      (listSet pre.global_poses pre.root_bone_index gp_root').bind fun global_poses_1 =>
      (global_poses_1[pre.root_bone_parent_index]?).bind fun gp_root_parent =>
      let local_pose_root := row_mat4_mul (ext.mat4_inv gp_root_parent) gp_root'
      (listSet target_poses pre.root_bone_index
          (TO.from_matrix local_pose_root)).bind fun target_poses_1 =>
      let original_direction_2 := vec3_normalized ext
        (vec3_sub pre.effector_bone_position pre.middle_bone_position)
      let target_direction_2 := vec3_normalized ext
        (vec3_sub pre.effector_target_position middle_bone_target)
      let rotation_change_2 := ext.rotation_from_to target_direction_2 original_direction_2
      (global_poses_1[pre.middle_bone_index]?).bind fun gp_mid =>
      let original_rotation_2 := mat4_get_rotation ext gp_mid
      let new_rotation_2 := quaternion_mul original_rotation_2 rotation_change_2
      let gp_mid' := mat4_set_translation (mat4_set_rotation gp_mid new_rotation_2)
        middle_bone_target
      (listSet global_poses_1 pre.middle_bone_index gp_mid').bind fun global_poses_2 =>
      (global_poses_2[pre.root_bone_index]?).bind fun gp_root_2 =>
      let local_pose_middle := row_mat4_mul (ext.mat4_inv gp_root_2) gp_mid'
      (listSet target_poses_1 pre.middle_bone_index
          (TO.from_matrix local_pose_middle)).bind fun target_poses_2 =>
      (hashMapGet params node.blend_param).bind fun blend_parameter =>
      (List.range output_poses.length).mapM fun i =>
        (target_poses_2[i]?).bind fun ik_pose =>
          (output_poses[i]?).bind fun output_pose =>
            some (TO.lerp output_pose ik_pose blend_parameter)

/-- One iteration of src/blend_tree.rs `AnimBlendTree::synchronize`: a
lerp node whose two inputs are clip-node handles reads the blend
parameter, computes the target duration as the blend-weighted average of
the two clip durations, and sets each instance's playback rate to
`own_duration / target_duration` (first clip 1, then clip 2, re-reading
the arena between the two mutations as the source does). -/
def syncStep {T : Type} (global_time : ℚ) (params : Params)
    (tree : AnimBlendTree T) (lerp_node : LerpAnimNode) :
    Option (AnimBlendTree T) :=
  match lerp_node.input_1, lerp_node.input_2 with
  | AnimNodeHandle.ClipAnimNodeHandle clip_1, AnimNodeHandle.ClipAnimNodeHandle clip_2 =>
    (hashMapGet params lerp_node.blend_param).bind fun blend_parameter =>
    (tree.clip_nodes[clip_1]?).bind fun cn_1 =>
    (tree.clip_nodes[clip_2]?).bind fun cn_2 =>
    let target_length := (1 - blend_parameter) * cn_1.clip.get_duration +
      blend_parameter * cn_2.clip.get_duration
    (tree.clip_nodes[clip_1]?).bind fun cn_1b =>
    let length_1 := cn_1b.clip.get_duration
    (listSet tree.clip_nodes clip_1
        { cn_1b with
          clip := (cn_1b.clip.set_playback_rate global_time (length_1 / target_length)) }).bind
      fun clip_nodes_1 =>
    let tree_1 := { tree with clip_nodes := clip_nodes_1 }
    (tree_1.clip_nodes[clip_2]?).bind fun cn_2b =>
    let length_2 := cn_2b.clip.get_duration
    (listSet tree_1.clip_nodes clip_2
        { cn_2b with
          clip := (cn_2b.clip.set_playback_rate global_time (length_2 / target_length)) }).bind
      fun clip_nodes_2 =>
    some { tree_1 with clip_nodes := clip_nodes_2 }
  | _, _ => some tree

/-- src/blend_tree.rs `AnimBlendTree::synchronize`: fold the step over the
lerp-node arena (the source iterates `self.lerp_nodes` while mutating only
`self.clip_nodes`). -/
def AnimBlendTree.synchronize {T : Type} (tree : AnimBlendTree T)
    (global_time : ℚ) (params : Params) : Option (AnimBlendTree T) :=
  tree.lerp_nodes.foldlM (syncStep global_time params) tree

/-- The spec's notion of an input "resolving (transitively) to a single
clip node" (§4.4): a clip handle resolves to itself, and a handle to a
single-input node (an IK node) resolves to whatever its input resolves
to; nodes with two inputs do not resolve to a single clip. The fuel
argument bounds the chase through the arena. -/
def resolveToClipNode {T : Type} (tree : AnimBlendTree T) :
    ℕ → AnimNodeHandle → Option ℕ
  | 0, _ => none
  | _ + 1, AnimNodeHandle.ClipAnimNodeHandle i => some i
  | fuel + 1, AnimNodeHandle.IKAnimNodeHandle i =>
    (tree.ik_nodes[i]?).bind fun node => resolveToClipNode tree fuel node.input
  | _ + 1, _ => none

/-- C4: for every evaluation of an IK node where the (plane-projected)
distance from the root bone to the target position exceeds L1+L2 or is
less than |L1−L2| (stated on squares: dist² > (L1+L2)² or dist² < (L1−L2)²,
which for non-negative lengths is the spec's condition), the IK
contribution is skipped: the node's output poses equal the unmodified
input poses. In this exact-rational embedding no NaN exists; the skip
path produces a defined value (`some` of the input) rather than poisoned
arithmetic. -/
theorem ik_unreachable_skips {T : Type} (ext : Ext) (TO : TransformOps T)
    (node : IKNode) (skeleton : Skeleton) (params : Params)
    (output_poses : List T) (pre : IKPrelude)
    (hpre : IKNode.prelude ext TO node skeleton params output_poses = some pre)
    (hfar : pre.plane_target.x ^ 2 + pre.plane_target.y ^ 2 >
        (pre.length_1 + pre.length_2) ^ 2 ∨
      pre.plane_target.x ^ 2 + pre.plane_target.y ^ 2 <
        (pre.length_1 - pre.length_2) ^ 2) :
    IKNode.get_output_pose ext TO node skeleton params output_poses =
      some output_poses := by
  unfold IKNode.get_output_pose
  rw [hpre, Option.some_bind]
  have hsolve : solve_ik_2d ext pre.length_1 pre.length_2
      (pre.plane_target.x, pre.plane_target.y) = none := by
    simp only [solve_ik_2d]
    rw [if_pos hfar]
  rw [hsolve]

/-- The IK node of the unreachable-target witness (effector joint 3). -/
def ikWitnessNode : IKNode :=
  ⟨AnimNodeHandle.None, "blend", "tx", "ty", "tz", "bx", "by", "bz", 3⟩

/-- A four-joint chain skeleton for the IK witness. -/
def ikWitnessSkeleton : Skeleton :=
  ⟨[⟨"a", 255, mat4_id⟩, ⟨"b", 0, mat4_id⟩, ⟨"c", 1, mat4_id⟩, ⟨"d", 2, mat4_id⟩]⟩

/-- Parameters for the IK witness: target (30, 0, 0), far beyond the
reach of the two unit-length bones; bend direction (0, 0, 1). -/
def ikWitnessParams : Params :=
  [("blend", 1), ("tx", 30), ("ty", 0), ("tz", 0), ("bx", 0), ("by", 0), ("bz", 1)]

/-- Input poses for the IK witness: each joint translated by (1, 0, 0). -/
def ikWitnessPoses : List Mat4 :=
  [mat4_set_translation mat4_id ⟨1, 0, 0⟩, mat4_set_translation mat4_id ⟨1, 0, 0⟩,
   mat4_set_translation mat4_id ⟨1, 0, 0⟩, mat4_set_translation mat4_id ⟨1, 0, 0⟩]

/-- The concrete prelude value of the IK witness. -/
def ikWitnessPre : IKPrelude :=
  (IKNode.prelude extOne (mat4Ops extOne) ikWitnessNode ikWitnessSkeleton
    ikWitnessParams ikWitnessPoses).getD default

/-- Witness for the unreachable-IK claim on the concrete chain: target at
distance 28 from the root bone with unit bone lengths. -/
theorem ik_unreachable_skips_witness :
    (IKNode.prelude extOne (mat4Ops extOne) ikWitnessNode ikWitnessSkeleton
      ikWitnessParams ikWitnessPoses = some ikWitnessPre) ∧
    (ikWitnessPre.plane_target.x ^ 2 + ikWitnessPre.plane_target.y ^ 2 >
        (ikWitnessPre.length_1 + ikWitnessPre.length_2) ^ 2 ∨
      ikWitnessPre.plane_target.x ^ 2 + ikWitnessPre.plane_target.y ^ 2 <
        (ikWitnessPre.length_1 - ikWitnessPre.length_2) ^ 2) ∧
    IKNode.get_output_pose extOne (mat4Ops extOne) ikWitnessNode ikWitnessSkeleton
      ikWitnessParams ikWitnessPoses = some ikWitnessPoses :=
  ⟨by with_unfolding_all decide, by with_unfolding_all decide,
   ik_unreachable_skips extOne (mat4Ops extOne) ikWitnessNode ikWitnessSkeleton
     ikWitnessParams ikWitnessPoses ikWitnessPre (by with_unfolding_all decide)
     (by with_unfolding_all decide)⟩

/-- Writing a skeleton with more joints than the output buffer has room
for fails: the store at the buffer's length panics (if a missing local
pose or a hierarchy violation does not fail first). -/
theorem skeleton_calculate_global_poses_aux_none {T : Type} (TO : TransformOps T)
    (local_poses : List T) :
    ∀ (joints : List Joint) (buffer : List Mat4) (i : ℕ), joints ≠ [] →
      buffer.length < i + joints.length →
      skeleton_calculate_global_poses_aux TO local_poses joints buffer i = none := by
  intro joints
  induction joints with
  | nil => intro buffer i hne _; exact absurd rfl hne
  | cons joint rest ih =>
    intro buffer i _ h
    rw [List.length_cons] at h
    cases hl : local_poses[i]? with
    | none => rw [skeleton_calculate_global_poses_aux, hl]; rfl
    | some lp =>
      rw [skeleton_calculate_global_poses_aux, hl]
      simp only [Option.some_bind]
      cases hg : (if joint.is_root then some (TO.to_matrix lp)
          else if joint.parent_index < i then
            (buffer[joint.parent_index]?).map fun parent_pose =>
              row_mat4_mul parent_pose (TO.to_matrix lp)
          else none) with
      | none => rfl
      | some g =>
        simp only [Option.some_bind]
        cases hset : listSet buffer i g with
        | none => rfl
        | some buffer' =>
          simp only [Option.some_bind]
          have hib : i < buffer.length := by
            by_contra hc
            unfold listSet at hset
            rw [if_neg hc] at hset
            exact Option.noConfusion hset
          have hlen : buffer'.length = buffer.length := by
            unfold listSet at hset
            rw [if_pos hib] at hset
            cases hset
            simp
          cases rest with
          | nil =>
            simp only [List.length_nil] at h
            exact absurd hib (by omega)
          | cons r rest' =>
            exact ih buffer' (i + 1) (by simp)
              (by simp only [List.length_cons] at h ⊢; omega)

/-- A bind returns `none` when every continuation value does. -/
theorem option_bind_none {α β : Type} (x : Option α) (f : α → Option β)
    (h : ∀ a, f a = none) : x.bind f = none := by
  cases x with
  | none => rfl
  | some a => exact h a

/-- The IK prelude fails when the skeleton has more than 64 joints: the
global-pose pass overflows the source's 64-element buffer (or fails
earlier on a missing parameter, joint or pose). -/
theorem ik_prelude_none_of_many_joints {T : Type} (ext : Ext) (TO : TransformOps T)
    (node : IKNode) (skeleton : Skeleton) (params : Params)
    (output_poses : List T) (hskel : 64 < skeleton.joints.length) :
    IKNode.prelude ext TO node skeleton params output_poses = none := by
  have hne : skeleton.joints ≠ [] := by
    intro hc
    rw [hc] at hskel
    simp at hskel
  have hcalc : Skeleton.calculate_global_poses TO skeleton output_poses
      (List.replicate 64 mat4_id) = none := by
    apply skeleton_calculate_global_poses_aux_none TO output_poses skeleton.joints _ 0 hne
    rw [List.length_replicate]
    omega
  unfold IKNode.prelude
  apply option_bind_none
  intro t_x
  apply option_bind_none
  intro t_y
  apply option_bind_none
  intro t_z
  apply option_bind_none
  intro j_eff
  apply option_bind_none
  intro j_mid
  apply option_bind_none
  intro j_root
  rw [hcalc]
  rfl

/-- C9: blend-tree node evaluation uses fixed 64-element scratch buffers
(`MAX_JOINTS = 64` in src/controller.rs): for every output pose slice
longer than 64 joints, evaluating a `LerpAnimNode`, `AdditiveAnimNode`,
or `IKNode` panics (the lerp/additive nodes on the out-of-range scratch
slice `input_poses[0 .. sample_count]`, the IK node on the overflowing
64-element global-pose buffer of a skeleton with one joint per output
pose), so the public evaluation interface is total only for skeletons
with at most 64 joints. -/
theorem max_joints_overflow_panics {T : Type} (ext : Ext) (TO : TransformOps T)
    (lerp_node : LerpAnimNode) (additive_node : AdditiveAnimNode) (ik_node : IKNode)
    (params : Params) (skeleton : Skeleton) (input_poses output_poses : List T)
    (hlen : 64 < output_poses.length)
    (hskel : skeleton.joints.length = output_poses.length) :
    LerpAnimNode.get_output_pose TO lerp_node params input_poses output_poses = none ∧
    AdditiveAnimNode.get_output_pose TO additive_node params input_poses output_poses =
      none ∧
    IKNode.get_output_pose ext TO ik_node skeleton params output_poses = none := by
  have hslice : rust_slice (List.replicate 64 TO.identity) 0 output_poses.length =
      none := by
    unfold rust_slice
    rw [if_neg]
    rw [List.length_replicate]
    omega
  refine ⟨?_, ?_, ?_⟩
  · unfold LerpAnimNode.get_output_pose
    apply option_bind_none
    intro blend
    rw [hslice]
    rfl
  · unfold AdditiveAnimNode.get_output_pose
    apply option_bind_none
    intro blend
    rw [hslice]
    rfl
  · unfold IKNode.get_output_pose
    rw [ik_prelude_none_of_many_joints ext TO ik_node skeleton params output_poses
      (by omega)]
    rfl

/-- Witness skeleton with 65 joints for the overflow claim. -/
def overflowSkeleton : Skeleton := ⟨List.replicate 65 ⟨"j", 255, mat4_id⟩⟩

/-- Witness for the 64-joint overflow claim at 65 output poses. -/
theorem max_joints_overflow_panics_witness :
    (64 < (List.replicate 65 mat4_id).length) ∧
    (overflowSkeleton.joints.length = (List.replicate 65 mat4_id).length) ∧
    (LerpAnimNode.get_output_pose (mat4Ops extOne)
        ⟨AnimNodeHandle.None, AnimNodeHandle.None, "b"⟩ [("b", 1 / 2)]
        (List.replicate 65 mat4_id) (List.replicate 65 mat4_id) = none ∧
      AdditiveAnimNode.get_output_pose (mat4Ops extOne)
        ⟨AnimNodeHandle.None, AnimNodeHandle.None, "b"⟩ [("b", 1 / 2)]
        (List.replicate 65 mat4_id) (List.replicate 65 mat4_id) = none ∧
      IKNode.get_output_pose extOne (mat4Ops extOne)
        ⟨AnimNodeHandle.None, "b", "tx", "ty", "tz", "bx", "by", "bz", 0⟩
        overflowSkeleton [("b", 1 / 2)] (List.replicate 65 mat4_id) = none) :=
  ⟨by decide, by decide,
   max_joints_overflow_panics extOne (mat4Ops extOne)
     ⟨AnimNodeHandle.None, AnimNodeHandle.None, "b"⟩
     ⟨AnimNodeHandle.None, AnimNodeHandle.None, "b"⟩
     ⟨AnimNodeHandle.None, "b", "tx", "ty", "tz", "bx", "by", "bz", 0⟩
     [("b", 1 / 2)] overflowSkeleton (List.replicate 65 mat4_id)
     (List.replicate 65 mat4_id) (by decide) (by decide)⟩

/-- Blending from the identity dual quaternion by factor 0 returns the
identity exactly, given that the renormalization square root is exact at
the unit magnitude. -/
theorem lerp_dual_quaternion_id_zero (ext : Ext) (q : DualQuat)
    (hsqrt : ext.sqrt 1 = 1) :
    lerp_dual_quaternion ext dual_quaternion_id q 0 = dual_quaternion_id := by
  obtain ⟨⟨w1, x1, y1, z1⟩, ⟨w2, x2, y2, z2⟩⟩ := q
  simp [lerp_dual_quaternion, dual_quaternion_dot, quaternion_dot,
    dual_quaternion_scale, quaternion_scale, dual_quaternion_add, quaternion_add,
    dual_quaternion_normalize, quaternion_len, dual_quaternion_id, quaternion_id,
    hsqrt]

/-- C6: for every pair of base and additive input poses, evaluating an
AdditiveAnimNode with its blend parameter equal to 0 reproduces the base
input pose exactly, per joint: output = concat(base, lerp(identity,
additive, 0)) = base. Stated at the dual-quaternion transform instance,
whose identity is exact under composition; the dual-quaternion
renormalization square root is assumed exact at the unit magnitude
(`ext.sqrt 1 = 1`). -/
theorem additive_zero_reproduces_base (ext : Ext) (node : AdditiveAnimNode)
    (params : Params) (base_poses output_poses : List DualQuat)
    (hb : hashMapGet params node.blend_param = some 0)
    (hlen : base_poses.length = output_poses.length)
    (hle : output_poses.length ≤ 64)
    (hsqrt : ext.sqrt 1 = 1) :
    AdditiveAnimNode.get_output_pose (dualQuaternionOps ext) node params
      base_poses output_poses = some base_poses := by
  have hslice : rust_slice (List.replicate 64 (dualQuaternionOps ext).identity) 0
      output_poses.length =
      some (((List.replicate 64 (dualQuaternionOps ext).identity).take
        output_poses.length).drop 0) := by
    unfold rust_slice
    rw [if_pos ⟨Nat.zero_le _, by rw [List.length_replicate]; exact hle⟩]
  simp only [AdditiveAnimNode.get_output_pose]
  rw [hb, hslice]
  simp only [Option.some_bind]
  refine congrArg some ?_
  apply List.ext_getElem?
  intro i
  rw [List.getElem?_map]
  by_cases hi : i < output_poses.length
  · rw [List.getElem?_range hi]
    have hib : i < base_poses.length := by omega
    obtain ⟨bp, hbp⟩ : ∃ bp, base_poses[i]? = some bp := by
      rw [List.getElem?_eq_getElem hib]
      exact ⟨_, rfl⟩
    obtain ⟨op, hop⟩ : ∃ op, output_poses[i]? = some op := by
      rw [List.getElem?_eq_getElem hi]
      exact ⟨_, rfl⟩
    have hp1 : (base_poses ++ List.replicate (64 - base_poses.length)
        (dualQuaternionOps ext).identity).getD i (dualQuaternionOps ext).identity = bp := by
      rw [List.getD_eq_getElem?_getD, List.getElem?_append_left hib, hbp]
      rfl
    have hp2 : output_poses.getD i (dualQuaternionOps ext).identity = op := by
      rw [List.getD_eq_getElem?_getD, hop]
      rfl
    rw [Option.map_some', hp1, hp2]
    have hlerp : (dualQuaternionOps ext).lerp (dualQuaternionOps ext).identity op 0 =
        dual_quaternion_id := lerp_dual_quaternion_id_zero ext op hsqrt
    show some ((dualQuaternionOps ext).concat _ _) = _
    rw [hlerp, hbp]
    show some (dual_quaternion_mul bp dual_quaternion_id) = some bp
    rw [dual_quaternion_mul_id]
  · rw [List.getElem?_eq_none (by rw [List.length_range]; omega),
      List.getElem?_eq_none (by omega)]
    rfl

/-- Witness for the additive-identity claim on concrete dual-quaternion
poses. -/
theorem additive_zero_reproduces_base_witness :
    (hashMapGet [("blend", 0)] "blend" = some 0) ∧
    ([(⟨⟨1, 0, 0, 0⟩, ⟨0, 0, 0, 0⟩⟩ : DualQuat),
        ⟨⟨0, 1, 0, 0⟩, ⟨0, 0, 3, 0⟩⟩].length = 2) ∧
    AdditiveAnimNode.get_output_pose (dualQuaternionOps extOne)
      ⟨AnimNodeHandle.None, AnimNodeHandle.None, "blend"⟩ [("blend", 0)]
      [⟨⟨1, 0, 0, 0⟩, ⟨0, 0, 0, 0⟩⟩, ⟨⟨0, 1, 0, 0⟩, ⟨0, 0, 3, 0⟩⟩]
      [⟨⟨0, 0, 1, 0⟩, ⟨0, 5, 0, 0⟩⟩, ⟨⟨0, 0, 0, 1⟩, ⟨2, 0, 0, 0⟩⟩] =
      some [⟨⟨1, 0, 0, 0⟩, ⟨0, 0, 0, 0⟩⟩, ⟨⟨0, 1, 0, 0⟩, ⟨0, 0, 3, 0⟩⟩] :=
  ⟨by with_unfolding_all decide, by decide,
   additive_zero_reproduces_base extOne
     ⟨AnimNodeHandle.None, AnimNodeHandle.None, "blend"⟩ [("blend", 0)]
     [⟨⟨1, 0, 0, 0⟩, ⟨0, 0, 0, 0⟩⟩, ⟨⟨0, 1, 0, 0⟩, ⟨0, 0, 3, 0⟩⟩]
     [⟨⟨0, 0, 1, 0⟩, ⟨0, 5, 0, 0⟩⟩, ⟨⟨0, 0, 0, 1⟩, ⟨2, 0, 0, 0⟩⟩]
     (by with_unfolding_all decide) (by decide) (by decide) rfl⟩

/-- src/controller.rs `Operator`. -/
inductive Operator where
  | LessThan
  | LessThanEqual
  | GreaterThan
  | GreaterThanEqual
  | Equal
  | NotEqual
deriving DecidableEq

/-- src/controller.rs `TransitionCondition`. -/
structure TransitionCondition where
  parameter : String
  operator : Operator
  value : ℚ
deriving DecidableEq

/-- src/controller.rs `TransitionCondition::is_true`: compares the looked
up parameter value with the constant; the `parameters[..]` indexing panics
on an unknown name (`none`). -/
def TransitionCondition.is_true (c : TransitionCondition) (parameters : Params) :
    Option Bool :=
  (hashMapGet parameters c.parameter).bind fun x =>
    some (match c.operator with
      | Operator.LessThan => decide (x < c.value)
      | Operator.GreaterThan => decide (x > c.value)
      | Operator.LessThanEqual => decide (x ≤ c.value)
      | Operator.GreaterThanEqual => decide (x ≥ c.value)
      | Operator.Equal => decide (x = c.value)
      | Operator.NotEqual => decide (x ≠ c.value))

/-- src/controller.rs `AnimationTransition`. -/
structure AnimationTransition where
  target_state : String
  condition : TransitionCondition
  duration : ℚ
deriving DecidableEq

/-- src/controller.rs `AnimationState`, reduced to its transition list:
the state's blend tree only matters for the pose arrays, which the
controller model elides (see `AnimationController.get_output_pose`). -/
structure AnimationState where
  transitions : List AnimationTransition
deriving DecidableEq

/-- src/controller.rs `AnimationController` (pose-independent state):
parameters, local clock, playback speed, the named states, the current
state name, and the in-flight transition with its start time. -/
structure AnimationController where
  parameters : Params
  local_clock : ℚ
  playback_speed : ℚ
  states : List (String × AnimationState)
  current_state : String
  transition : Option (ℚ × AnimationTransition)
deriving DecidableEq

/-- src/controller.rs `AnimationController::update`:
`local_clock += delta_time * playback_speed`. -/
def AnimationController.update (c : AnimationController) (delta_time : ℚ) :
    AnimationController :=
  { c with local_clock := c.local_clock + delta_time * c.playback_speed }

/-- src/controller.rs `AnimationController::set_playback_speed`. -/
def AnimationController.set_playback_speed (c : AnimationController) (speed : ℚ) :
    AnimationController :=
  { c with playback_speed := speed }

/-- src/controller.rs `AnimationController::set_param_value`: inserts (or
overwrites) the binding in the parameter map unconditionally. -/
def AnimationController.set_param_value (c : AnimationController) (name : String)
    (value : ℚ) : AnimationController :=
  { c with parameters := (name, value) :: c.parameters }

/-- src/controller.rs `AnimationController::get_param_value`:
`self.parameters[name]`, which panics on an unknown name (`none`). -/
def AnimationController.get_param_value (c : AnimationController) (name : String) :
    Option ℚ :=
  hashMapGet c.parameters name

/-- The transition scan of src/controller.rs `update_state`: the first
transition whose condition is true, in declaration order; the outer
`none` is a panicked condition lookup. -/
def findTriggered (parameters : Params) :
    List AnimationTransition → Option (Option AnimationTransition)
  | [] => some none
  | t :: rest =>
    (t.condition.is_true parameters).bind fun b =>
      if b then some (some t) else findTriggered parameters rest

/-- src/controller.rs `AnimationController::update_state`: an in-flight
transition whose window has elapsed (`local_clock + ext_dt >= start_time +
duration`) commits to the target state; otherwise, with no transition in
flight, the active state's transitions are scanned in order and the first
passing condition starts a transition at `local_clock + ext_dt`. -/
def AnimationController.update_state (c : AnimationController) (ext_dt : ℚ) :
    Option AnimationController :=
  match c.transition with
  | some (start_time, transition) =>
    if c.local_clock + ext_dt ≥ start_time + transition.duration then
      some { c with current_state := transition.target_state, transition := none }
    else
      some c
  | none =>
    (hashMapGet c.states c.current_state).bind fun current_state =>
      (findTriggered c.parameters current_state.transitions).bind fun found =>
        match found with
        | some t => some { c with transition := some (c.local_clock + ext_dt, t) }
        | none => some c

/-- src/controller.rs `AnimationController::get_output_pose`, reduced to
its state update and the blend factor it uses: after `update_state`, the
active state's tree is evaluated (pose arrays elided here; the state
lookups that would panic are kept), and when a transition is in flight the
target state's tree is evaluated as well and the two pose sets are blended
by `(local_clock + ext_dt - transition_start_time) / duration` — returned
here as the second component (`none` when no transition blend happened). -/
def AnimationController.get_output_pose (c : AnimationController) (ext_dt : ℚ) :
    Option (AnimationController × Option ℚ) :=
  (c.update_state ext_dt).bind fun c =>
    (hashMapGet c.states c.current_state).bind fun _ =>
      match c.transition with
      | some (transition_start_time, transition) =>
        (hashMapGet c.states transition.target_state).bind fun _ =>
          let blend_parameter :=
            (c.local_clock + ext_dt - transition_start_time) / transition.duration
          some (c, some blend_parameter)
      | none => some (c, none)

/-- C10: for every controller, every name (declared or not) and every
value, `set_param_value` succeeds (it is total) and silently inserts or
overwrites the binding, and a subsequent `get_param_value` of that name
returns exactly that value; the write consults no declared parameter
list, in contrast to reads, which panic on unknown names. -/
theorem set_param_value_then_get (c : AnimationController) (name : String)
    (value : ℚ) :
    (c.set_param_value name value).get_param_value name = some value := by
  simp [AnimationController.set_param_value, AnimationController.get_param_value,
    hashMapGet]

/-- A lookup of a name bound nowhere in the map returns `none`. -/
theorem hashMapGet_eq_none_of_not_mem {α : Type} (l : List (String × α))
    (name : String) (h : name ∉ l.map Prod.fst) : hashMapGet l name = none := by
  induction l with
  | nil => rfl
  | cons p rest ih =>
    obtain ⟨k, v⟩ := p
    simp only [List.map_cons, List.mem_cons, not_or] at h
    unfold hashMapGet
    rw [if_neg (fun hkn => h.1 hkn.symm)]
    exact ih h.2

/-- C8: for every parameter name not present in the controller's
parameter map, looking the parameter up — via `get_param_value`, a
transition-condition check, or a lerp blend-tree node reading its blend
parameter — fails loudly (the `HashMap` indexing panic, modelled as
`none`) rather than silently returning a default value of zero. -/
theorem unknown_parameter_lookup_panics {T : Type} (TO : TransformOps T)
    (c : AnimationController) (cond : TransitionCondition) (node : LerpAnimNode)
    (name : String) (input_poses output_poses : List T)
    (habsent : name ∉ c.parameters.map Prod.fst)
    (hcond : cond.parameter = name) (hnode : node.blend_param = name) :
    c.get_param_value name = none ∧
    cond.is_true c.parameters = none ∧
    LerpAnimNode.get_output_pose TO node c.parameters input_poses output_poses =
      none := by
  have hg : hashMapGet c.parameters name = none :=
    hashMapGet_eq_none_of_not_mem _ _ habsent
  refine ⟨hg, ?_, ?_⟩
  · unfold TransitionCondition.is_true
    rw [hcond, hg]
    rfl
  · simp only [LerpAnimNode.get_output_pose]
    rw [hnode, hg]
    rfl

/-- Witness for the unknown-parameter claim: a controller holding only
"a", queried at "b" through all three read paths. -/
theorem unknown_parameter_lookup_panics_witness :
    ("b" ∉ ([("a", (1 : ℚ))] : Params).map Prod.fst) ∧
    (AnimationController.get_param_value ⟨[("a", 1)], 0, 1, [], "s", none⟩ "b" =
      none ∧
    TransitionCondition.is_true ⟨"b", Operator.LessThan, 0⟩ [("a", 1)] = none ∧
    LerpAnimNode.get_output_pose (mat4Ops extOne)
      ⟨AnimNodeHandle.None, AnimNodeHandle.None, "b"⟩ [("a", 1)] [] [] = none) :=
  ⟨by decide,
   unknown_parameter_lookup_panics (mat4Ops extOne)
     ⟨[("a", 1)], 0, 1, [], "s", none⟩ ⟨"b", Operator.LessThan, 0⟩
     ⟨AnimNodeHandle.None, AnimNodeHandle.None, "b"⟩ "b" [] []
     (by decide) rfl rfl⟩

/-- The controller of the blend-factor overshoot trace: state A holds a
transition to B guarded by `p > 1/2` with duration −1 (transition
durations are decoded from definition files without validation). -/
def overshootController : AnimationController :=
  ⟨[("p", 0)], 0, 1,
   [("A", ⟨[⟨"B", ⟨"p", Operator.GreaterThan, 1 / 2⟩, -1⟩]⟩), ("B", ⟨[]⟩)],
   "A", none⟩

/-- The blend factor used by the last call of the overshoot trace:
set `p` to 1, call `get_output_pose` (starting the transition), reverse
the playback speed, advance the clock by 2 seconds, and read the blend
factor used by the next `get_output_pose`. -/
def overshootTraceFactor : Option ℚ :=
  ((overshootController.set_param_value ("p") 1).get_output_pose 0).bind fun r1 =>
    (((r1.1.set_playback_speed (-1)).update 2).get_output_pose 0).bind fun r2 =>
      r2.2

/-- C7: a reachable sequence of controller calls during an in-flight
transition for which the transition blend factor
`(local_clock + ext_dt − transition_start) / duration` used by
`get_output_pose` to blend the two states' local poses exceeds 1.0: the
trace above reaches factor 2. (The factor carries no explicit clamp.
Note the mechanism: the commit check of `update_state` uses the same
expression as the factor, so with a positive duration and the same
`ext_dt` the factor used stays below 1; the overshoot requires degenerate
inputs — here a negative transition duration with reversed playback —
rather than merely a delayed call; see
`used_blend_factor_lt_one_of_pos_duration` below.) -/
theorem blend_factor_overshoot : overshootTraceFactor = some 2 ∧ (1 : ℚ) < 2 :=
  ⟨by with_unfolding_all decide, by norm_num⟩

/-- Companion analysis to the overshoot trace: whenever the in-flight
transition (if any) has a positive duration, the blend factor actually
used by `get_output_pose` is below 1 — the commit check of `update_state`
runs first, in the same call, on the same expression. The overshoot of
the claim is therefore reachable only through degenerate definitions. -/
theorem used_blend_factor_lt_one_of_pos_duration (c : AnimationController)
    (ext_dt : ℚ) (c₂ : AnimationController) (f : ℚ)
    (hdur : ∀ s t, c.transition = some (s, t) → 0 < t.duration)
    (h : c.get_output_pose ext_dt = some (c₂, some f)) : f < 1 := by
  unfold AnimationController.get_output_pose at h
  obtain ⟨c1, hc1, h2⟩ := Option.bind_eq_some.mp h
  obtain ⟨st', hlook, h3⟩ := Option.bind_eq_some.mp h2
  cases htr2 : c1.transition with
  | none =>
    rw [htr2] at h3
    simp at h3
  | some p =>
    obtain ⟨s2, t2⟩ := p
    rw [htr2] at h3
    obtain ⟨st2, hlook2, h4⟩ := Option.bind_eq_some.mp h3
    have hf : (c1.local_clock + ext_dt - s2) / t2.duration = f := by
      have hpair := Option.some.inj h4
      have := congrArg Prod.snd hpair
      exact Option.some.inj this
    unfold AnimationController.update_state at hc1
    cases htr : c.transition with
    | some p0 =>
      obtain ⟨s, t⟩ := p0
      rw [htr] at hc1
      have hc1r : (if c.local_clock + ext_dt ≥ s + t.duration then
          some { c with current_state := t.target_state, transition := none }
        else some c) = some c1 := hc1
      by_cases hge : c.local_clock + ext_dt ≥ s + t.duration
      · rw [if_pos hge] at hc1r
        have hc1' := Option.some.inj hc1r
        rw [← hc1'] at htr2
        exact Option.noConfusion htr2
      · rw [if_neg hge] at hc1r
        have hc1' := Option.some.inj hc1r
        subst hc1'
        rw [htr] at htr2
        have hpq := Option.some.inj htr2
        have hs : s = s2 := congrArg Prod.fst hpq
        have ht : t = t2 := congrArg Prod.snd hpq
        have hpos : 0 < t2.duration := ht ▸ hdur s t htr
        rw [← hf]
        rw [div_lt_one hpos]
        have : c.local_clock + ext_dt < s + t.duration := lt_of_not_ge hge
        rw [← hs, ← ht]
        linarith
    | none =>
      rw [htr] at hc1
      obtain ⟨cs, hcs, hc1'⟩ := Option.bind_eq_some.mp hc1
      obtain ⟨found, hfound, hc1''⟩ := Option.bind_eq_some.mp hc1'
      cases found with
      | some t' =>
        have hc1''' := Option.some.inj hc1''
        rw [← hc1'''] at htr2
        have hpq : some (c.local_clock + ext_dt, t') = some (s2, t2) := htr2
        have hs2 : c.local_clock + ext_dt = s2 :=
          congrArg Prod.fst (Option.some.inj hpq)
        have hclock : c1.local_clock = c.local_clock := by rw [← hc1''']
        rw [← hf, hclock, ← hs2, sub_self, zero_div]
        norm_num
      | none =>
        have hc1''' := Option.some.inj hc1''
        rw [← hc1'''] at htr2
        rw [htr] at htr2
        exact Option.noConfusion htr2

/-- A successful `getElem?` witnesses an in-range index. -/
theorem getElem?_some_lt {α : Type} {l : List α} {i : ℕ} {a : α}
    (h : l[i]? = some a) : i < l.length := by
  by_contra hc
  rw [List.getElem?_eq_none (by omega)] at h
  exact Option.noConfusion h

/-- A lerp node references a clip-node index when both of its inputs are
clip handles and the index is one of them. -/
def lerpRefs (ln : LerpAnimNode) (c : ℕ) : Prop :=
  ∃ c1 c2, ln.input_1 = AnimNodeHandle.ClipAnimNodeHandle c1 ∧
    ln.input_2 = AnimNodeHandle.ClipAnimNodeHandle c2 ∧ (c = c1 ∨ c = c2)

/-- A synchronize step over a lerp node whose inputs are not both clip
handles leaves the tree unchanged. -/
theorem syncStep_of_not_clips {T : Type} (global_time : ℚ) (params : Params)
    (tree : AnimBlendTree T) (ln : LerpAnimNode)
    (h : ∀ c1 c2, ln.input_1 = AnimNodeHandle.ClipAnimNodeHandle c1 →
      ln.input_2 = AnimNodeHandle.ClipAnimNodeHandle c2 → False) :
    syncStep global_time params tree ln = some tree := by
  unfold syncStep
  cases hin1 : ln.input_1 <;> cases hin2 : ln.input_2 <;> try rfl
  exact (h _ _ hin1 hin2).elim

/-- The clip node produced by a synchronize step: the instance's playback
rate set to its own duration over the target duration. -/
def syncedClipNode {T : Type} (global_time : ℚ) (cn : ClipAnimNode T)
    (target_length : ℚ) : ClipAnimNode T :=
  { cn with clip := (cn.clip.set_playback_rate global_time
      (cn.clip.get_duration / target_length)) }

/-- A synchronize step over a lerp node with two (distinct, valid) clip
inputs sets both instances' playback rates to own duration over the
blend-weighted target duration. -/
theorem syncStep_of_clips {T : Type} (global_time : ℚ) (params : Params)
    (tree : AnimBlendTree T) (ln : LerpAnimNode) (c1 c2 : ℕ)
    (cn1 cn2 : ClipAnimNode T) (b : ℚ)
    (hin1 : ln.input_1 = AnimNodeHandle.ClipAnimNodeHandle c1)
    (hin2 : ln.input_2 = AnimNodeHandle.ClipAnimNodeHandle c2)
    (hb : hashMapGet params ln.blend_param = some b)
    (h1 : tree.clip_nodes[c1]? = some cn1)
    (h2 : tree.clip_nodes[c2]? = some cn2)
    (hne : c1 ≠ c2) :
    syncStep global_time params tree ln = some { tree with clip_nodes :=
      ((tree.clip_nodes.set c1 (syncedClipNode global_time cn1
        ((1 - b) * cn1.clip.get_duration + b * cn2.clip.get_duration))).set c2
        (syncedClipNode global_time cn2
          ((1 - b) * cn1.clip.get_duration + b * cn2.clip.get_duration))) } := by
  have hlt1 : c1 < tree.clip_nodes.length := getElem?_some_lt h1
  have hlt2 : c2 < tree.clip_nodes.length := getElem?_some_lt h2
  unfold syncStep
  rw [hin1, hin2]
  show (hashMapGet params ln.blend_param).bind _ = _
  rw [hb]
  simp only [Option.some_bind]
  rw [h1, h2]
  simp only [Option.some_bind]
  have hsl1 : listSet tree.clip_nodes c1
      (⟨(cn1.clip.set_playback_rate global_time (cn1.clip.get_duration /
        ((1 - b) * cn1.clip.get_duration + b * cn2.clip.get_duration)))⟩ : ClipAnimNode T) =
      some (tree.clip_nodes.set c1
        ⟨(cn1.clip.set_playback_rate global_time (cn1.clip.get_duration /
          ((1 - b) * cn1.clip.get_duration + b * cn2.clip.get_duration)))⟩) := by
    unfold listSet
    rw [if_pos hlt1]
  rw [hsl1]
  simp only [Option.some_bind]
  rw [List.getElem?_set_ne hne, h2]
  simp only [Option.some_bind]
  have hsl2 : listSet (tree.clip_nodes.set c1
      ⟨(cn1.clip.set_playback_rate global_time (cn1.clip.get_duration /
        ((1 - b) * cn1.clip.get_duration + b * cn2.clip.get_duration)))⟩) c2
      (⟨(cn2.clip.set_playback_rate global_time (cn2.clip.get_duration /
        ((1 - b) * cn1.clip.get_duration + b * cn2.clip.get_duration)))⟩ : ClipAnimNode T) =
      some ((tree.clip_nodes.set c1
        ⟨(cn1.clip.set_playback_rate global_time (cn1.clip.get_duration /
          ((1 - b) * cn1.clip.get_duration + b * cn2.clip.get_duration)))⟩).set c2
        ⟨(cn2.clip.set_playback_rate global_time (cn2.clip.get_duration /
          ((1 - b) * cn1.clip.get_duration + b * cn2.clip.get_duration)))⟩) := by
    unfold listSet
    rw [if_pos (by rw [List.length_set]; exact hlt2)]
  rw [hsl2]
  rfl

/-- Invariant of the synchronize fold: when every lerp node with two clip
inputs has valid, distinct clip handles and a present blend parameter, and
distinct lerp nodes reference disjoint clip nodes, the fold succeeds, only
referenced clip nodes change, and each referenced instance ends with its
playback rate set from its own duration and the blend-weighted target. -/
theorem sync_foldlM_spec {T : Type} (global_time : ℚ) (params : Params) :
    ∀ (lns : List LerpAnimNode) (t : AnimBlendTree T),
    (∀ ln ∈ lns, ∀ c1 c2,
      ln.input_1 = AnimNodeHandle.ClipAnimNodeHandle c1 →
      ln.input_2 = AnimNodeHandle.ClipAnimNodeHandle c2 →
      c1 < t.clip_nodes.length ∧ c2 < t.clip_nodes.length ∧ c1 ≠ c2 ∧
        ∃ b, hashMapGet params ln.blend_param = some b) →
    (∀ (i j : ℕ) (li lj : LerpAnimNode), i ≠ j →
      lns[i]? = some li → lns[j]? = some lj →
      ∀ c, lerpRefs li c → ¬ lerpRefs lj c) →
    ∃ t', List.foldlM (syncStep global_time params) t lns = some t' ∧
      t'.clip_nodes.length = t.clip_nodes.length ∧
      (∀ c : ℕ, (∀ ln ∈ lns, ¬ lerpRefs ln c) →
        t'.clip_nodes[c]? = t.clip_nodes[c]?) ∧
      (∀ ln ∈ lns, ∀ c1 c2,
        ln.input_1 = AnimNodeHandle.ClipAnimNodeHandle c1 →
        ln.input_2 = AnimNodeHandle.ClipAnimNodeHandle c2 →
        ∃ cn1 cn2 b, t.clip_nodes[c1]? = some cn1 ∧
          t.clip_nodes[c2]? = some cn2 ∧
          hashMapGet params ln.blend_param = some b ∧
          t'.clip_nodes[c1]? = some (syncedClipNode global_time cn1
            ((1 - b) * cn1.clip.get_duration + b * cn2.clip.get_duration)) ∧
          t'.clip_nodes[c2]? = some (syncedClipNode global_time cn2
            ((1 - b) * cn1.clip.get_duration + b * cn2.clip.get_duration))) := by
  intro lns
  induction lns with
  | nil =>
    intro t _ _
    refine ⟨t, rfl, rfl, fun c _ => rfl, ?_⟩
    intro ln hmem
    simp at hmem
  | cons ln0 rest ih =>
    intro t hv hd
    have hd' : ∀ (i j : ℕ) (li lj : LerpAnimNode), i ≠ j →
        rest[i]? = some li → rest[j]? = some lj →
        ∀ c, lerpRefs li c → ¬ lerpRefs lj c := by
      intro i j li lj hij hi hj
      exact hd (i + 1) (j + 1) li lj (by omega) (by simpa using hi) (by simpa using hj)
    have hd0 : ∀ lj ∈ rest, ∀ c, lerpRefs ln0 c → ¬ lerpRefs lj c := by
      intro lj hmem c
      obtain ⟨j, hj⟩ := List.getElem?_of_mem hmem
      exact hd 0 (j + 1) ln0 lj (by omega) (by simp) (by simpa using hj) c
    by_cases hcc : ∃ c1 c2, ln0.input_1 = AnimNodeHandle.ClipAnimNodeHandle c1 ∧
        ln0.input_2 = AnimNodeHandle.ClipAnimNodeHandle c2
    · obtain ⟨c1, c2, hin1, hin2⟩ := hcc
      obtain ⟨hlt1, hlt2, hne, b, hb⟩ :=
        hv ln0 (List.mem_cons_self ln0 rest) c1 c2 hin1 hin2
      obtain ⟨cn1, h1⟩ : ∃ cn1, t.clip_nodes[c1]? = some cn1 := by
        rw [List.getElem?_eq_getElem hlt1]
        exact ⟨_, rfl⟩
      obtain ⟨cn2, h2⟩ : ∃ cn2, t.clip_nodes[c2]? = some cn2 := by
        rw [List.getElem?_eq_getElem hlt2]
        exact ⟨_, rfl⟩
      have hstep := syncStep_of_clips global_time params t ln0 c1 c2 cn1 cn2 b
        hin1 hin2 hb h1 h2 hne
      set v1 := syncedClipNode global_time cn1
        ((1 - b) * cn1.clip.get_duration + b * cn2.clip.get_duration) with hv1
      set v2 := syncedClipNode global_time cn2
        ((1 - b) * cn1.clip.get_duration + b * cn2.clip.get_duration) with hv2
      set t1 : AnimBlendTree T :=
        { t with clip_nodes := ((t.clip_nodes.set c1 v1).set c2 v2) } with ht1
      have ht1len : t1.clip_nodes.length = t.clip_nodes.length := by
        rw [ht1]
        simp
      have ht1read_other : ∀ c : ℕ, c ≠ c1 → c ≠ c2 →
          t1.clip_nodes[c]? = t.clip_nodes[c]? := by
        intro c hne1 hne2
        rw [ht1]
        show ((t.clip_nodes.set c1 v1).set c2 v2)[c]? = _
        rw [List.getElem?_set_ne (fun hc => hne2 hc.symm),
          List.getElem?_set_ne (fun hc => hne1 hc.symm)]
      have ht1read_c1 : t1.clip_nodes[c1]? = some v1 := by
        rw [ht1]
        show ((t.clip_nodes.set c1 v1).set c2 v2)[c1]? = _
        rw [List.getElem?_set_ne (fun hc => hne hc.symm),
          List.getElem?_set_self hlt1]
      have ht1read_c2 : t1.clip_nodes[c2]? = some v2 := by
        rw [ht1]
        show ((t.clip_nodes.set c1 v1).set c2 v2)[c2]? = _
        rw [List.getElem?_set_self (by rw [List.length_set]; exact hlt2)]
      have hv' : ∀ ln ∈ rest, ∀ c1' c2',
          ln.input_1 = AnimNodeHandle.ClipAnimNodeHandle c1' →
          ln.input_2 = AnimNodeHandle.ClipAnimNodeHandle c2' →
          c1' < t1.clip_nodes.length ∧ c2' < t1.clip_nodes.length ∧ c1' ≠ c2' ∧
            ∃ b', hashMapGet params ln.blend_param = some b' := by
        intro ln hmem c1' c2' hin1' hin2'
        obtain ⟨ha, hb', hc', hd''⟩ :=
          hv ln (List.mem_cons_of_mem ln0 hmem) c1' c2' hin1' hin2'
        exact ⟨by rw [ht1len]; exact ha, by rw [ht1len]; exact hb', hc', hd''⟩
      obtain ⟨t', hfold, hlen', hframe', hvals'⟩ := ih t1 hv' hd'
      have hrefs0 : ∀ c : ℕ, (c = c1 ∨ c = c2) → lerpRefs ln0 c :=
        fun c hc => ⟨c1, c2, hin1, hin2, hc⟩
      have hrest_not_c1 : ∀ ln ∈ rest, ¬ lerpRefs ln c1 :=
        fun ln hmem => hd0 ln hmem c1 (hrefs0 c1 (Or.inl rfl))
      have hrest_not_c2 : ∀ ln ∈ rest, ¬ lerpRefs ln c2 :=
        fun ln hmem => hd0 ln hmem c2 (hrefs0 c2 (Or.inr rfl))
      have hfold0 : List.foldlM (syncStep global_time params) t (ln0 :: rest) =
          List.foldlM (syncStep global_time params) t1 rest := by
        rw [List.foldlM_cons, hstep]
        rfl
      refine ⟨t', by rw [hfold0]; exact hfold, by rw [hlen', ht1len], ?_, ?_⟩
      · intro c hc
        have hnc1 : c ≠ c1 := fun hcc1 =>
          hc ln0 (List.mem_cons_self ln0 rest) (hrefs0 c (Or.inl hcc1))
        have hnc2 : c ≠ c2 := fun hcc2 =>
          hc ln0 (List.mem_cons_self ln0 rest) (hrefs0 c (Or.inr hcc2))
        rw [hframe' c (fun ln hmem => hc ln (List.mem_cons_of_mem ln0 hmem)),
          ht1read_other c hnc1 hnc2]
      · intro ln hmem c1' c2' hin1' hin2'
        rcases List.mem_cons.mp hmem with hln0 | hmemr
        · subst hln0
          have hc1eq : c1 = c1' := by
            rw [hin1] at hin1'
            exact AnimNodeHandle.ClipAnimNodeHandle.inj hin1'
          have hc2eq : c2 = c2' := by
            rw [hin2] at hin2'
            exact AnimNodeHandle.ClipAnimNodeHandle.inj hin2'
          subst hc1eq
          subst hc2eq
          refine ⟨cn1, cn2, b, h1, h2, hb, ?_, ?_⟩
          · rw [hframe' c1 hrest_not_c1, ht1read_c1]
          · rw [hframe' c2 hrest_not_c2, ht1read_c2]
        · obtain ⟨cn1', cn2', b', h1', h2', hb'', hr1, hr2⟩ :=
            hvals' ln hmemr c1' c2' hin1' hin2'
          have hnotrefs := hd0 ln hmemr
          have hme : lerpRefs ln c1' := ⟨c1', c2', hin1', hin2', Or.inl rfl⟩
          have hme2 : lerpRefs ln c2' := ⟨c1', c2', hin1', hin2', Or.inr rfl⟩
          have hno1 : c1' ≠ c1 ∧ c1' ≠ c2 := by
            constructor
            · intro hce
              exact hnotrefs c1' (hrefs0 c1' (Or.inl hce)) hme
            · intro hce
              exact hnotrefs c1' (hrefs0 c1' (Or.inr hce)) hme
          have hno2 : c2' ≠ c1 ∧ c2' ≠ c2 := by
            constructor
            · intro hce
              exact hnotrefs c2' (hrefs0 c2' (Or.inl hce)) hme2
            · intro hce
              exact hnotrefs c2' (hrefs0 c2' (Or.inr hce)) hme2
          rw [ht1read_other c1' hno1.1 hno1.2] at h1'
          rw [ht1read_other c2' hno2.1 hno2.2] at h2'
          exact ⟨cn1', cn2', b', h1', h2', hb'', hr1, hr2⟩
    · have hstep := syncStep_of_not_clips global_time params t ln0
        (fun c1 c2 hin1 hin2 => hcc ⟨c1, c2, hin1, hin2⟩)
      have hv' : ∀ ln ∈ rest, ∀ c1' c2',
          ln.input_1 = AnimNodeHandle.ClipAnimNodeHandle c1' →
          ln.input_2 = AnimNodeHandle.ClipAnimNodeHandle c2' →
          c1' < t.clip_nodes.length ∧ c2' < t.clip_nodes.length ∧ c1' ≠ c2' ∧
            ∃ b', hashMapGet params ln.blend_param = some b' :=
        fun ln hmem => hv ln (List.mem_cons_of_mem ln0 hmem)
      obtain ⟨t', hfold, hlen', hframe', hvals'⟩ := ih t hv' hd'
      have hfold0 : List.foldlM (syncStep global_time params) t (ln0 :: rest) =
          List.foldlM (syncStep global_time params) t rest := by
        rw [List.foldlM_cons, hstep]
        rfl
      refine ⟨t', by rw [hfold0]; exact hfold, hlen', ?_, ?_⟩
      · intro c hc
        exact hframe' c (fun ln hmem => hc ln (List.mem_cons_of_mem ln0 hmem))
      · intro ln hmem c1' c2' hin1' hin2'
        rcases List.mem_cons.mp hmem with hln0 | hmemr
        · subst hln0
          exact absurd ⟨c1', c2', hin1', hin2'⟩ hcc
        · exact hvals' ln hmemr c1' c2' hin1' hin2'

/-- C5 (amended): for every Lerp node whose two inputs are both directly
clip-node handles (the source matches on immediate `ClipAnimNodeHandle`s,
not on transitive resolution), with valid and distinct clip handles,
distinct Lerp nodes referencing disjoint clip nodes (as holds for trees
built by `add_node`, which creates a fresh clip node per definition leaf),
and present blend parameters, `synchronize` sets each side's ClipInstance
playback rate to own_duration / target_duration, where target_duration =
(1 − blend) * duration_1 + blend * duration_2 of the two clips' current
durations. -/
theorem synchronize_direct_clips_sets_rates {T : Type} (tree : AnimBlendTree T)
    (global_time : ℚ) (params : Params)
    (hvalid : ∀ ln ∈ tree.lerp_nodes, ∀ c1 c2,
      ln.input_1 = AnimNodeHandle.ClipAnimNodeHandle c1 →
      ln.input_2 = AnimNodeHandle.ClipAnimNodeHandle c2 →
      c1 < tree.clip_nodes.length ∧ c2 < tree.clip_nodes.length ∧ c1 ≠ c2 ∧
        ∃ b, hashMapGet params ln.blend_param = some b)
    (hdisj : ∀ (i j : ℕ) (li lj : LerpAnimNode), i ≠ j →
      tree.lerp_nodes[i]? = some li → tree.lerp_nodes[j]? = some lj →
      ∀ c, lerpRefs li c → ¬ lerpRefs lj c) :
    ∃ tree', tree.synchronize global_time params = some tree' ∧
      ∀ ln ∈ tree.lerp_nodes, ∀ c1 c2,
        ln.input_1 = AnimNodeHandle.ClipAnimNodeHandle c1 →
        ln.input_2 = AnimNodeHandle.ClipAnimNodeHandle c2 →
        ∃ cn1 cn2 b, tree.clip_nodes[c1]? = some cn1 ∧
          tree.clip_nodes[c2]? = some cn2 ∧
          hashMapGet params ln.blend_param = some b ∧
          ((tree'.clip_nodes[c1]?).map fun cn => cn.clip.playback_rate) =
            some (cn1.clip.get_duration /
              ((1 - b) * cn1.clip.get_duration + b * cn2.clip.get_duration)) ∧
          ((tree'.clip_nodes[c2]?).map fun cn => cn.clip.playback_rate) =
            some (cn2.clip.get_duration /
              ((1 - b) * cn1.clip.get_duration + b * cn2.clip.get_duration)) := by
  obtain ⟨t', hfold, _, _, hvals⟩ :=
    sync_foldlM_spec global_time params tree.lerp_nodes tree hvalid hdisj
  refine ⟨t', hfold, ?_⟩
  intro ln hmem c1 c2 hin1 hin2
  obtain ⟨cn1, cn2, b, h1, h2, hb, hr1, hr2⟩ := hvals ln hmem c1 c2 hin1 hin2
  refine ⟨cn1, cn2, b, h1, h2, hb, ?_, ?_⟩
  · rw [hr1, Option.map_some']
    rfl
  · rw [hr2, Option.map_some']
    rfl

/-- A tree whose single Lerp node has an IK-wrapped clip as its first
input (resolving transitively to clip 0) and a direct clip as its second:
clip 0 has duration 1 and clip 1 duration 2. -/
def syncCounterTree : AnimBlendTree Mat4 :=
  ⟨AnimNodeHandle.LerpAnimNodeHandle 0,
   [⟨AnimNodeHandle.IKAnimNodeHandle 0, AnimNodeHandle.ClipAnimNodeHandle 1, "b"⟩],
   [],
   [⟨AnimNodeHandle.ClipAnimNodeHandle 0, "b", "tx", "ty", "tz", "bx", "by", "bz", 0⟩],
   [⟨ClipInstance.new ⟨[[]], 1⟩⟩, ⟨ClipInstance.new ⟨[[], []], 1⟩⟩],
   ⟨[]⟩⟩

/-- Counterexample to C5 as stated: the Lerp node's two inputs both
resolve (transitively) to single clip nodes — the first through an IK
node to clip 0 (duration 1), the second directly to clip 1 (duration 2) —
and the blend parameter is 1/2, yet `synchronize` leaves the tree
unchanged: clip 0 keeps playback rate 1 instead of the claimed
own_duration / target_duration = 1 / ((1 − 1/2)·1 + (1/2)·2) = 2/3,
because the source synchronizes only Lerp nodes whose inputs are
immediate clip handles. -/
theorem synchronize_transitive_inputs_not_synced :
    (syncCounterTree.lerp_nodes =
      [⟨AnimNodeHandle.IKAnimNodeHandle 0, AnimNodeHandle.ClipAnimNodeHandle 1, "b"⟩]) ∧
    resolveToClipNode syncCounterTree 8 (AnimNodeHandle.IKAnimNodeHandle 0) = some 0 ∧
    resolveToClipNode syncCounterTree 8 (AnimNodeHandle.ClipAnimNodeHandle 1) = some 1 ∧
    ((syncCounterTree.clip_nodes[0]?).map fun cn => cn.clip.get_duration) = some 1 ∧
    ((syncCounterTree.clip_nodes[1]?).map fun cn => cn.clip.get_duration) = some 2 ∧
    hashMapGet ([("b", 1 / 2)] : Params) "b" = some (1 / 2) ∧
    syncCounterTree.synchronize 0 [("b", 1 / 2)] = some syncCounterTree ∧
    ((syncCounterTree.clip_nodes[0]?).map fun cn => cn.clip.playback_rate) = some 1 ∧
    ((syncCounterTree.clip_nodes[1]?).map fun cn => cn.clip.playback_rate) = some 1 ∧
    (1 : ℚ) ≠ 1 / ((1 - 1 / 2) * 1 + (1 / 2) * 2) ∧
    (1 : ℚ) ≠ 2 / ((1 - 1 / 2) * 1 + (1 / 2) * 2) := by
  with_unfolding_all decide

/-- A tree whose single Lerp node has two direct clip inputs of durations
1 and 2, for the synchronize witness. -/
def syncWitnessTree : AnimBlendTree Mat4 :=
  ⟨AnimNodeHandle.LerpAnimNodeHandle 0,
   [⟨AnimNodeHandle.ClipAnimNodeHandle 0, AnimNodeHandle.ClipAnimNodeHandle 1, "b"⟩],
   [], [],
   [⟨ClipInstance.new ⟨[[]], 1⟩⟩, ⟨ClipInstance.new ⟨[[], []], 1⟩⟩],
   ⟨[]⟩⟩

/-- Witness for the amended synchronize claim on the concrete two-clip
tree with blend 1/2 (durations 1 and 2, so target 3/2). -/
theorem synchronize_direct_clips_sets_rates_witness :
    (∀ ln ∈ syncWitnessTree.lerp_nodes, ∀ c1 c2,
      ln.input_1 = AnimNodeHandle.ClipAnimNodeHandle c1 →
      ln.input_2 = AnimNodeHandle.ClipAnimNodeHandle c2 →
      c1 < syncWitnessTree.clip_nodes.length ∧
        c2 < syncWitnessTree.clip_nodes.length ∧ c1 ≠ c2 ∧
        ∃ b, hashMapGet ([("b", 1 / 2)] : Params) ln.blend_param = some b) ∧
    (∀ (i j : ℕ) (li lj : LerpAnimNode), i ≠ j →
      syncWitnessTree.lerp_nodes[i]? = some li →
      syncWitnessTree.lerp_nodes[j]? = some lj →
      ∀ c, lerpRefs li c → ¬ lerpRefs lj c) ∧
    (∃ tree', syncWitnessTree.synchronize 0 ([("b", 1 / 2)] : Params) = some tree' ∧
      ∀ ln ∈ syncWitnessTree.lerp_nodes, ∀ c1 c2,
        ln.input_1 = AnimNodeHandle.ClipAnimNodeHandle c1 →
        ln.input_2 = AnimNodeHandle.ClipAnimNodeHandle c2 →
        ∃ cn1 cn2 b, syncWitnessTree.clip_nodes[c1]? = some cn1 ∧
          syncWitnessTree.clip_nodes[c2]? = some cn2 ∧
          hashMapGet ([("b", 1 / 2)] : Params) ln.blend_param = some b ∧
          ((tree'.clip_nodes[c1]?).map fun cn => cn.clip.playback_rate) =
            some (cn1.clip.get_duration /
              ((1 - b) * cn1.clip.get_duration + b * cn2.clip.get_duration)) ∧
          ((tree'.clip_nodes[c2]?).map fun cn => cn.clip.playback_rate) =
            some (cn2.clip.get_duration /
              ((1 - b) * cn1.clip.get_duration + b * cn2.clip.get_duration))) := by
  have hvalid : ∀ ln ∈ syncWitnessTree.lerp_nodes, ∀ c1 c2,
      ln.input_1 = AnimNodeHandle.ClipAnimNodeHandle c1 →
      ln.input_2 = AnimNodeHandle.ClipAnimNodeHandle c2 →
      c1 < syncWitnessTree.clip_nodes.length ∧
        c2 < syncWitnessTree.clip_nodes.length ∧ c1 ≠ c2 ∧
        ∃ b, hashMapGet ([("b", 1 / 2)] : Params) ln.blend_param = some b := by
    intro ln hmem c1 c2 hin1 hin2
    have hln : ln = ⟨AnimNodeHandle.ClipAnimNodeHandle 0,
        AnimNodeHandle.ClipAnimNodeHandle 1, "b"⟩ := by
      simpa [syncWitnessTree] using hmem
    subst hln
    have h1 : AnimNodeHandle.ClipAnimNodeHandle 0 =
        AnimNodeHandle.ClipAnimNodeHandle c1 := hin1
    have h2 : AnimNodeHandle.ClipAnimNodeHandle 1 =
        AnimNodeHandle.ClipAnimNodeHandle c2 := hin2
    cases h1
    cases h2
    exact ⟨by decide, by decide, by decide, 1 / 2, by with_unfolding_all decide⟩
  have hdisj : ∀ (i j : ℕ) (li lj : LerpAnimNode), i ≠ j →
      syncWitnessTree.lerp_nodes[i]? = some li →
      syncWitnessTree.lerp_nodes[j]? = some lj →
      ∀ c, lerpRefs li c → ¬ lerpRefs lj c := by
    intro i j li lj hij hi hj
    have hi' := getElem?_some_lt hi
    have hj' := getElem?_some_lt hj
    simp [syncWitnessTree] at hi' hj'
    exact absurd (by omega : i = j) hij
  exact ⟨hvalid, hdisj,
    synchronize_direct_clips_sets_rates syncWitnessTree 0 ([("b", 1 / 2)] : Params) hvalid hdisj⟩

end SkeletalAnimation
